import Mathlib

/-!
# CHIP-8 cycle engine (`Chip8.cpp`): shallow embedding and checked properties

The machine state of `class Chip8` is a record of its member arrays and
scalars.  Arrays are functions from an index to a value; every array access
of the source is guarded by the bound of the array, and an access outside the
bound (undefined behaviour in C++) makes the operation return `none`.
Machine integers are natural numbers, reduced modulo `2 ^ w` where the source
stores into a `w`-bit variable.
-/

set_option maxRecDepth 4096

/-- Modelled from the spec: `CH8_MEM_SIZE` is declared in `Chip8.h`, which is
not among the sources; the spec fixes the memory at 4096 bytes. -/
def CH8_MEM_SIZE : Nat := 4096

/-- Modelled from the spec: `CH8_WIDTH` is declared in `Chip8.h`; the spec
gives a display 64 pixels wide. -/
def CH8_WIDTH : Nat := 64

/-- Modelled from the spec: `CH8_HEIGHT` is declared in `Chip8.h`; the spec
gives a display 32 pixels high. -/
def CH8_HEIGHT : Nat := 32

/-- Modelled from the spec: `CH8_STACK_SIZE` is declared in `Chip8.h`; the
spec asks for a call stack of at least 16 frames, taken here as 16. -/
def CH8_STACK_SIZE : Nat := 16

/-- Number of `V` registers (`m_V[16]`, indices `0x0..0xF`). -/
def CH8_NUM_REGS : Nat := 16

/-- Number of keys (`m_keys[16]`, indices `0x0..0xF`). -/
def CH8_NUM_KEYS : Nat := 16

/-- The table `CH8_FONTSET[80]` of `Chip8.cpp`. -/
def CH8_FONTSET : List Nat :=
  [0xF0, 0x90, 0x90, 0x90, 0xF0,
   0x20, 0x60, 0x20, 0x20, 0x70,
   0xF0, 0x10, 0xF0, 0x80, 0xF0,
   0xF0, 0x10, 0xF0, 0x10, 0xF0,
   0x90, 0x90, 0xF0, 0x10, 0x10,
   0xF0, 0x80, 0xF0, 0x10, 0xF0,
   0xF0, 0x80, 0xF0, 0x90, 0xF0,
   0xF0, 0x10, 0x20, 0x40, 0x40,
   0xF0, 0x90, 0xF0, 0x90, 0xF0,
   0xF0, 0x90, 0xF0, 0x10, 0xF0,
   0xF0, 0x90, 0xF0, 0x90, 0x90,
   0xE0, 0x90, 0xE0, 0x90, 0xE0,
   0xF0, 0x80, 0x80, 0x80, 0xF0,
   0xE0, 0x90, 0x90, 0x90, 0xE0,
   0xF0, 0x80, 0xF0, 0x80, 0xF0,
   0xF0, 0x80, 0xF0, 0x80, 0x80]

/-- Store `v` at index `i` of a one-dimensional array: `a[i] = v`. -/
def arrSet {α : Type} (a : Nat → α) (i : Nat) (v : α) : Nat → α :=
  fun j => if j = i then v else a j

/-- Store `v` at `g[i][j]` of a two-dimensional array. -/
def gfxSet {α : Type} (g : Nat → Nat → α) (i j : Nat) (v : α) : Nat → Nat → α :=
  fun a b => if a = i ∧ b = j then v else g a b

/-- The loop `for (int i = lo; i < lo + count; i++) body(i)`, running `count`
iterations from `i = lo`. -/
def forCount {σ : Type} (body : Nat → σ → σ) : Nat → Nat → σ → σ
  | _, 0, s => s
  | i, k + 1, s => forCount body (i + 1) k (body i s)

/-- The loop `for (int i = lo; i < hi; i++) body(i)`. -/
def forLoop {σ : Type} (lo hi : Nat) (body : Nat → σ → σ) (s : σ) : σ :=
  forCount body lo (hi - lo) s

/-- A counted loop whose body can make an out-of-bounds access (`none`). -/
def forCountM {σ : Type} (body : Nat → σ → Option σ) : Nat → Nat → σ → Option σ
  | _, 0, s => some s
  | i, k + 1, s => (body i s).bind (forCountM body (i + 1) k)

/-- The loop `for (int i = lo; i < hi; i++) body(i)` with a fallible body. -/
def forLoopM {σ : Type} (lo hi : Nat) (body : Nat → σ → Option σ) (s : σ) : Option σ :=
  forCountM body lo (hi - lo) s

/-- The data members of `class Chip8`. -/
structure Chip8 where
  /-- `uint8_t m_memory[CH8_MEM_SIZE]` -/
  m_memory : Nat → Nat
  /-- `uint8_t m_V[16]` -/
  m_V : Nat → Nat
  /-- `uint16_t m_I` -/
  m_I : Nat
  /-- `uint16_t m_pc` -/
  m_pc : Nat
  /-- `m_gfx[CH8_WIDTH][CH8_HEIGHT]` -/
  m_gfx : Nat → Nat → Nat
  /-- `uint8_t m_dTimer` -/
  m_dTimer : Nat
  /-- `uint8_t m_sTimer` -/
  m_sTimer : Nat
  /-- `uint16_t m_stack[CH8_STACK_SIZE]` -/
  m_stack : Nat → Nat
  /-- `m_sp`, index of the next free stack slot -/
  m_sp : Nat
  /-- `bool m_keys[16]` -/
  m_keys : Nat → Bool
  /-- `bool m_drawFlag` -/
  m_drawFlag : Bool
  /-- `bool m_wrapFlag` -/
  m_wrapFlag : Bool

namespace Chip8

/-- Modelled from the spec: `incrPC` is defined in `Chip8.h`, not among the
sources; the spec has the program counter, a 16-bit value, incremented by 2
(one instruction word). -/
def incrPC (s : Chip8) : Chip8 :=
  { s with m_pc := (s.m_pc + 2) % 65536 }

/-- `Chip8::clearDisp`: two nested loops writing 0 to every `m_gfx[i][j]`. -/
def clearDisp (s : Chip8) : Chip8 :=
  { s with m_gfx :=
      forLoop 0 CH8_WIDTH (fun i g =>
        forLoop 0 CH8_HEIGHT (fun j g => gfxSet g i j 0) g) s.m_gfx }

/-- The constructor `Chip8::Chip8()`, run on the not yet initialised object
`s`: clears the first `0x200` bytes and copies the font set. -/
def new (s : Chip8) : Chip8 :=
  let m1 := forLoop 0 0x200 (fun i m => arrSet m i 0) s.m_memory
  let m2 := forLoop 0 80 (fun i m => arrSet m i (CH8_FONTSET.getD i 0)) m1
  { s with m_memory := m2 }

/-- `Chip8::init`. -/
def init (s : Chip8) : Chip8 :=
  let s := { s with m_pc := 0x200 }
  let s := { s with m_I := 0 }
  let s := { s with m_sp := 0 }
  let s := clearDisp s
  let s := { s with m_V := forLoop 0 0xF (fun i v => arrSet v i 0) s.m_V }
  let s := { s with m_stack := forLoop 0 CH8_STACK_SIZE (fun i st => arrSet st i 0) s.m_stack }
  let s := { s with m_memory := forLoop s.m_pc CH8_MEM_SIZE (fun i m => arrSet m i 0) s.m_memory }
  let s := { s with m_dTimer := 0 }
  let s := { s with m_sTimer := 0 }
  let s := { s with m_keys := forLoop 0 0xF (fun i k => arrSet k i false) s.m_keys }
  { s with m_wrapFlag := false }

/-- The instruction word `(m_memory[m_pc] << 8) | m_memory[m_pc + 1]`,
stored in a `uint16_t`. -/
def fetch (s : Chip8) : Nat :=
  ((s.m_memory s.m_pc <<< 8) ||| s.m_memory (s.m_pc + 1)) % 65536

/-- Inner loop body of `DXYN` for one column `col` of sprite row `row`. -/
def drawCol (x y row spriteRow : Nat) (col : Nat) (s : Chip8) : Option Chip8 :=
  let bit := (spriteRow &&& (0x80 >>> col)) % 256
  if bit ≠ 0 then
    if s.m_V x + col > CH8_WIDTH ∧ s.m_wrapFlag = false then
      some s
    else if x < CH8_NUM_REGS ∧ y + row < CH8_NUM_REGS
        ∧ s.m_V x + col < CH8_WIDTH ∧ s.m_V (y + row) < CH8_HEIGHT then
      let s1 :=
        if s.m_gfx (s.m_V x + col) (s.m_V (y + row)) = 1 then
          { s with m_V := arrSet s.m_V 0xF 1 }
        else s
      if s1.m_V x + col < CH8_WIDTH ∧ s1.m_V (y + row) < CH8_HEIGHT then
        some { s1 with m_gfx := gfxSet s1.m_gfx (s1.m_V x + col) (s1.m_V (y + row))
                                 (s1.m_gfx (s1.m_V x + col) (s1.m_V (y + row)) ^^^ 1) }
      else none
    else none
  else some s

/-- Outer loop body of `DXYN` for sprite row `row`. -/
def drawRow (x y : Nat) (row : Nat) (s : Chip8) : Option Chip8 :=
  if s.m_I + row < CH8_MEM_SIZE then
    let spriteRow := s.m_memory (s.m_I + row)
    forLoopM 0 8 (drawCol x y row spriteRow) s
  else none

/-- The `DXYN` case of the switch. -/
def draw (opcode x y : Nat) (s : Chip8) : Option Chip8 :=
  let height := opcode &&& 0x0F
  let s := { s with m_V := arrSet s.m_V 0xF 0 }
  (forLoopM 0 height (drawRow x y) s).map
    (fun s => incrPC { s with m_drawFlag := true })

/-- The key scan of `FX0A`: `for (int i = 0; i < 0xF; i++) if (m_keys[i]) ...`;
the assignment `i = 0xF` inside the body ends the loop.  The second component
is `keyIsPressed`. -/
def keyScan (x : Nat) : Nat → Nat → Chip8 × Bool → Chip8 × Bool
  | _, 0, st => st
  | i, k + 1, (s, pressed) =>
    if s.m_keys i then
      ({ s with m_V := arrSet s.m_V x (if s.m_keys i then 1 else 0) }, true)
    else keyScan x (i + 1) k (s, pressed)

/-- The timer update that closes `emulateCycle`. -/
def updateTimers (s : Chip8) : Chip8 :=
  let s := if s.m_dTimer > 0 then { s with m_dTimer := s.m_dTimer - 1 } else s
  if s.m_sTimer ≠ 0 then { s with m_sTimer := s.m_sTimer - 1 } else s

/-- Result of the decode switch: the state, and whether control reaches the
timer update (`true`) or left `emulateCycle` through `return` (`false`). -/
abbrev Step := Option (Chip8 × Bool)

/-- Leaving a case of the switch with `break`. -/
def brk (s : Chip8) : Step := some (s, true)

/-- The inner switch of `case 0x000` on `opcode & 0x00FF`. -/
def class0 (opcode : Nat) (s : Chip8) : Step :=
  if opcode &&& 0x00FF = 0x00E0 then
    brk (incrPC { clearDisp s with m_drawFlag := true })
  else if opcode &&& 0x00FF = 0x00EE then
    -- m_pc = m_stack[--m_sp]
    if 0 < s.m_sp ∧ s.m_sp - 1 < CH8_STACK_SIZE then
      let s := { s with m_sp := s.m_sp - 1 }
      brk (incrPC { s with m_pc := s.m_stack s.m_sp })
    else none
  else brk s

/-- The inner switch of `case 0x8000` on `opcode & 0x000F`. -/
def class8 (opcode x y : Nat) (s : Chip8) : Step :=
  let n := opcode &&& 0x000F
  if n = 0x0 then
    brk (incrPC { s with m_V := arrSet s.m_V x (s.m_V y) })
  else if n = 0x1 then
    brk (incrPC { s with m_V := arrSet s.m_V x (s.m_V x ||| s.m_V y) })
  else if n = 0x2 then
    brk (incrPC { s with m_V := arrSet s.m_V x (s.m_V x &&& s.m_V y) })
  else if n = 0x3 then
    brk (incrPC { s with m_V := arrSet s.m_V x (s.m_V x ^^^ s.m_V y) })
  else if n = 0x4 then
    let sum := (s.m_V x + s.m_V y) % 256
    let s := if sum < s.m_V x ∨ sum < s.m_V y
      then { s with m_V := arrSet s.m_V 0xF 1 }
      else { s with m_V := arrSet s.m_V 0xF 0 }
    brk (incrPC { s with m_V := arrSet s.m_V x sum })
  else if n = 0x5 then
    let dif := (s.m_V x + 256 - s.m_V y) % 256
    let s := if dif > s.m_V x
      then { s with m_V := arrSet s.m_V 0xF 0 }
      else { s with m_V := arrSet s.m_V 0xF 1 }
    brk (incrPC { s with m_V := arrSet s.m_V x dif })
  else if n = 0x6 then
    let s := { s with m_V := arrSet s.m_V 0xF (s.m_V x &&& 0x01) }
    brk (incrPC { s with m_V := arrSet s.m_V x (s.m_V x >>> 1) })
  else if n = 0x7 then
    let diff := (s.m_V y + 256 - s.m_V x) % 256
    let s := if diff > s.m_V y
      then { s with m_V := arrSet s.m_V 0xF 0 }
      else { s with m_V := arrSet s.m_V 0xF 1 }
    brk (incrPC { s with m_V := arrSet s.m_V x diff })
  else if n = 0xE then
    let s := { s with m_V := arrSet s.m_V 0xF (s.m_V x >>> 7) }
    brk (incrPC { s with m_V := arrSet s.m_V x ((s.m_V x <<< 1) % 256) })
  else brk s

/-- The inner switch of `case 0xE000` on `opcode & 0x00FF`. -/
def classE (opcode x : Nat) (s : Chip8) : Step :=
  if opcode &&& 0x00FF = 0x009E then
    if s.m_V x < CH8_NUM_KEYS then
      brk (incrPC (if s.m_keys (s.m_V x) then incrPC s else s))
    else none
  else if opcode &&& 0x00FF = 0x00A1 then
    if s.m_V x < CH8_NUM_KEYS then
      brk (incrPC (if !s.m_keys (s.m_V x) then incrPC s else s))
    else none
  else brk s

/-- Loop body of `FX55`: `m_memory[m_I + i] = m_V[i]`. -/
def regDumpStep (i : Nat) (s : Chip8) : Option Chip8 :=
  if s.m_I + i < CH8_MEM_SIZE ∧ i < CH8_NUM_REGS then
    some { s with m_memory := arrSet s.m_memory (s.m_I + i) (s.m_V i) }
  else none

/-- Loop body of `FX65`: `m_V[i] = m_memory[m_I + i]`. -/
def regLoadStep (i : Nat) (s : Chip8) : Option Chip8 :=
  if s.m_I + i < CH8_MEM_SIZE ∧ i < CH8_NUM_REGS then
    some { s with m_V := arrSet s.m_V i (s.m_memory (s.m_I + i)) }
  else none

/-- The inner switch of `case 0xF000` on `opcode & 0x00FF`. -/
def classF (opcode x : Nat) (s : Chip8) : Step :=
  let nn := opcode &&& 0x00FF
  if nn = 0x07 then
    brk (incrPC { s with m_V := arrSet s.m_V x s.m_dTimer })
  else if nn = 0x0A then
    let r := keyScan x 0 0xF (s, false)
    if !r.2 then some (r.1, false)
    else brk (incrPC r.1)
  else if nn = 0x15 then
    brk (incrPC { s with m_dTimer := s.m_V x })
  else if nn = 0x18 then
    brk (incrPC { s with m_sTimer := s.m_V x })
  else if nn = 0x1E then
    let vxisum := s.m_V x + s.m_I
    let s := if vxisum > 0x0FFF
      then { s with m_V := arrSet s.m_V 0xF 1 }
      else { s with m_V := arrSet s.m_V 0xF 0 }
    brk (incrPC { s with m_I := vxisum % 65536 })
  else if nn = 0x29 then
    brk (incrPC { s with m_I := (s.m_V x * 5) % 65536 })
  else if nn = 0x33 then
    if s.m_I + 2 < CH8_MEM_SIZE then
      let s := { s with m_memory := arrSet s.m_memory s.m_I (s.m_V x / 100) }
      let s := { s with m_memory := arrSet s.m_memory (s.m_I + 1) ((s.m_V x % 100) / 10) }
      let s := { s with m_memory := arrSet s.m_memory (s.m_I + 2) ((s.m_V x % 100) % 10) }
      brk (incrPC s)
    else none
  else if nn = 0x55 then
    (forLoopM 0 (x + 1) regDumpStep s).bind (fun s => brk (incrPC s))
  else if nn = 0x65 then
    (forLoopM 0 (x + 1) regLoadStep s).bind (fun s => brk (incrPC s))
  else brk s

/-- The outer switch of `emulateCycle` on `opcode & 0xF000`; `rnd` is the
value returned by `rand()`.  `case 0x9000` has no `break` and runs on into
`case 0xA000`. -/
def decode (rnd opcode x y : Nat) (s : Chip8) : Step :=
  let k := opcode &&& 0xF000
  if k = 0x0000 then class0 opcode s
  else if k = 0x1000 then
    brk { s with m_pc := opcode &&& 0x0FFF }
  else if k = 0x2000 then
    if s.m_sp < CH8_STACK_SIZE then
      let s := { s with m_stack := arrSet s.m_stack s.m_sp s.m_pc, m_sp := s.m_sp + 1 }
      brk { s with m_pc := opcode &&& 0x0FFF }
    else none
  else if k = 0x3000 then
    brk (incrPC (if s.m_V x = (opcode &&& 0x00FF) then incrPC s else s))
  else if k = 0x4000 then
    brk (incrPC (if s.m_V x ≠ (opcode &&& 0x00FF) then incrPC s else s))
  else if k = 0x5000 then
    brk (incrPC (if s.m_V x = s.m_V y then incrPC s else s))
  else if k = 0x6000 then
    brk (incrPC { s with m_V := arrSet s.m_V x (opcode &&& 0x00FF) })
  else if k = 0x7000 then
    brk (incrPC { s with m_V := arrSet s.m_V x ((s.m_V x + (opcode &&& 0x00FF)) % 256) })
  else if k = 0x8000 then class8 opcode x y s
  else if k = 0x9000 then
    let s := incrPC (if s.m_V x ≠ s.m_V y then incrPC s else s)
    brk (incrPC { s with m_I := opcode &&& 0x0FFF })
  else if k = 0xA000 then
    brk (incrPC { s with m_I := opcode &&& 0x0FFF })
  else if k = 0xB000 then
    brk { s with m_pc := (s.m_V 0x0 + (opcode &&& 0x0FFF)) % 65536 }
  else if k = 0xC000 then
    let rng := rnd % 256
    brk (incrPC { s with m_V := arrSet s.m_V x (rng &&& (opcode &&& 0x00FF)) })
  else if k = 0xD000 then
    (draw opcode x y s).bind brk
  else if k = 0xE000 then classE opcode x s
  else if k = 0xF000 then classF opcode x s
  else brk s

/-- `Chip8::emulateCycle`; `rnd` is the value `rand()` returns in this cycle.
The result is `none` when the cycle indexes an array outside its bounds. -/
def emulateCycle (rnd : Nat) (s : Chip8) : Option Chip8 :=
  let s := { s with m_drawFlag := false }
  if s.m_pc + 1 < CH8_MEM_SIZE then
    let opcode := fetch s
    let x := ((opcode >>> 8) &&& 0x0F) % 256
    let y := ((opcode >>> 4) &&& 0x0F) % 256
    (decode rnd opcode x y s).map
      (fun r => if r.2 then updateTimers r.1 else r.1)
  else none

end Chip8

namespace Chip8

/-! ## Concrete machine states used to exercise the theorems -/

/-- A machine with every array zeroed and the program counter at `0x200`. -/
def blank : Chip8 :=
  { m_memory := fun _ => 0, m_V := fun _ => 0, m_I := 0, m_pc := 0x200,
    m_gfx := fun _ _ => 0, m_dTimer := 0, m_sTimer := 0, m_stack := fun _ => 0,
    m_sp := 0, m_keys := fun _ => false, m_drawFlag := false, m_wrapFlag := false }

/-- Place the instruction word `hi lo` at the program counter of `s`. -/
def withOpcode (s : Chip8) (hi lo : Nat) : Chip8 :=
  { s with m_memory := arrSet (arrSet s.m_memory s.m_pc hi) (s.m_pc + 1) lo }

/-- Set register `Vi` of `s` to `v`. -/
def withReg (s : Chip8) (i v : Nat) : Chip8 :=
  { s with m_V := arrSet s.m_V i v }

/-- State for `8124` (add `V2` to `V1`) with `V1 = 200`, `V2 = 100`. -/
def stAdd : Chip8 := withReg (withReg (withOpcode blank 0x81 0x24) 1 200) 2 100

/-- State for `8125` (`V1 -= V2`) with `V1 = 3`, `V2 = 5`. -/
def stSub : Chip8 := withReg (withReg (withOpcode blank 0x81 0x25) 1 3) 2 5

/-- State for `8127` (`V1 = V2 - V1`) with `V1 = 3`, `V2 = 5`. -/
def stSubN : Chip8 := withReg (withReg (withOpcode blank 0x81 0x27) 1 3) 2 5

/-- State for `8126` (shift `V1` right) with `V1 = 0x81`. -/
def stShr : Chip8 := withReg (withOpcode blank 0x81 0x26) 1 0x81

/-- State for `812E` (shift `V1` left) with `V1 = 0x81`. -/
def stShl : Chip8 := withReg (withOpcode blank 0x81 0x2E) 1 0x81

/-- State for `F133` (digits of `V1`) with `V1 = 255`, `I = 0x300`. -/
def stBcd : Chip8 := { withReg (withOpcode blank 0xF1 0x33) 1 255 with m_I := 0x300 }

/-- State for the call `2300` at `0x200` whose target `0x300` holds `00EE`. -/
def stCall : Chip8 :=
  { withOpcode blank 0x23 0x00 with
    m_memory := arrSet (arrSet (withOpcode blank 0x23 0x00).m_memory 0x300 0x00) 0x301 0xEE }

/-- A state in which `VF = 7` and key `0xF` is down, as a running program and
the input source can leave them. -/
def stDirty : Chip8 :=
  { withReg blank 0xF 7 with m_keys := arrSet blank.m_keys 0xF true }

/-- State for `F255` at `0x200` followed by `F265` at `0x202`, with
`I = 0x300`, `V0 = 1`, `V1 = 2`, `V2 = 3`. -/
def stDump : Chip8 :=
  { withReg (withReg (withReg (withOpcode blank 0xF2 0x55) 0 1) 1 2) 2 3 with
    m_I := 0x300,
    m_memory := arrSet (arrSet (withOpcode blank 0xF2 0x55).m_memory 0x202 0xF2) 0x203 0x65 }

/-- State for `D012` (draw at `(V0, V1)`, 2 rows) with `V0 = 0`, `V1 = 0`,
`V2 = 5`, `I = 0x300`, sprite rows `0x80`, `0x80` and a blank display. -/
def stDrawRows : Chip8 :=
  { withReg (withOpcode blank 0xD0 0x12) 2 5 with
    m_I := 0x300,
    m_memory := arrSet (arrSet (withOpcode blank 0xD0 0x12).m_memory 0x300 0x80) 0x301 0x80 }

/-- State for `DF01` at `0x200` and again at `0x202` (draw at `(VF, V0)`, one
row) with `VF = 1`, `V0 = 0`, `I = 0x300`, sprite row `0xC0`, and pixel
`(1, 0)` set. -/
def stDrawVF : Chip8 :=
  { withReg (withOpcode blank 0xDF 0x01) 0xF 1 with
    m_I := 0x300,
    m_memory := arrSet (arrSet (arrSet (withOpcode blank 0xDF 0x01).m_memory
      0x202 0xDF) 0x203 0x01) 0x300 0xC0,
    m_gfx := gfxSet blank.m_gfx 1 0 1 }

/-- State for `D122` at `0x200` and again at `0x202` (draw at `(V1, V2)`, two
rows) with `V1 = 3`, `V2 = 4`, `V3 = 4`, `I = 0x300`, sprite rows `0xFF`,
`0x81`, and pixel `(3, 4)` set. -/
def stDrawTwice : Chip8 :=
  { withReg (withReg (withReg (withOpcode blank 0xD1 0x22) 1 3) 2 4) 3 4 with
    m_I := 0x300,
    m_memory := arrSet (arrSet (arrSet (arrSet (withOpcode blank 0xD1 0x22).m_memory
      0x202 0xD1) 0x203 0x22) 0x300 0xFF) 0x301 0x81,
    m_gfx := gfxSet blank.m_gfx 3 4 1 }

/-! ## Relations between states used for the sprite loops -/

/-- Two states agree on everything a `DXYN` with operands `x`, `y` and height
`n` reads besides the display and `VF`: the coordinate registers `Vx` and
`V(y+r)`, `I`, the `n` sprite bytes and the wrap flag. -/
def SameDrawInputs (x y n : Nat) (t u : Chip8) : Prop :=
  t.m_V x = u.m_V x ∧ (∀ r, r < n → t.m_V (y + r) = u.m_V (y + r)) ∧
  t.m_I = u.m_I ∧ (∀ r, r < n → t.m_memory (t.m_I + r) = u.m_memory (u.m_I + r)) ∧
  t.m_wrapFlag = u.m_wrapFlag

/-- The step `f` succeeds on every state related to `t` by `R` whenever it
succeeds on `t`, keeps the state in the class of `t`, and changes the display
by XOR with one mask `M` that is the same for all those states. -/
def XorUniform (R : Chip8 → Chip8 → Prop) (f : Chip8 → Option Chip8) (t : Chip8) : Prop :=
  ∀ t', f t = some t' → ∃ M : Nat → Nat → Nat, ∀ u, R t u →
    ∃ u', f u = some u' ∧ R t u' ∧ ∀ i j, u'.m_gfx i j = u.m_gfx i j ^^^ M i j

/-- State for the word `8128` at `0x200`, which no case of the `0x8000` switch
handles, with `V1 = 3`, `I = 0x300` and the delay timer at 1. -/
def stUnknown : Chip8 :=
  { withReg (withOpcode blank 0x81 0x28) 1 3 with m_I := 0x300, m_dTimer := 1 }

/-- State for the word `01E0` at `0x200` with pixel `(0, 0)` set. -/
def stLowByteE0 : Chip8 :=
  { withOpcode blank 0x01 0xE0 with m_gfx := gfxSet blank.m_gfx 0 0 1 }

/-- State for `9120` with `V1 = V2 = 0` and `I = 0x300`. -/
def stSkipNeqSame : Chip8 := { withOpcode blank 0x91 0x20 with m_I := 0x300 }

/-- State for `9120` with `V1 = 1`, `V2 = 0` and `I = 0x300`. -/
def stSkipNeqDiff : Chip8 :=
  { withReg (withOpcode blank 0x91 0x20) 1 1 with m_I := 0x300 }

/-- State for `F10A` with key 5 down and no other key. -/
def stWaitKey5 : Chip8 :=
  { withOpcode blank 0xF1 0x0A with m_keys := arrSet blank.m_keys 5 true }

/-- State for `F10A` with key `0xF` down and no other key, both timers at 5. -/
def stWaitKeyF : Chip8 :=
  { withOpcode blank 0xF1 0x0A with
    m_keys := arrSet blank.m_keys 0xF true, m_dTimer := 5, m_sTimer := 5 }

/-- State for `F10A` with no key down and both timers at 5. -/
def stWaitNoKey : Chip8 :=
  { withOpcode blank 0xF1 0x0A with m_dTimer := 5, m_sTimer := 5 }

/-- State for `3105` with `V1 = 5`. -/
def stSkipEq : Chip8 := withReg (withOpcode blank 0x31 0x05) 1 5

/-- State for `4105` with `V1 = 5`. -/
def stSkipNe : Chip8 := withReg (withOpcode blank 0x41 0x05) 1 5

/-- State for `5120` with `V1 = 5`, `V2 = 5`. -/
def stSkipRegEq : Chip8 := withReg (withReg (withOpcode blank 0x51 0x20) 1 5) 2 5

/-- State for `D011` (draw at `(V0, V1)`, one row) with `V0 = 57`, `V1 = 0`,
`I = 0x300`, sprite row `0x01` (only the last column set), wrap flag off. -/
def stDrawEdge : Chip8 :=
  { withReg (withOpcode blank 0xD0 0x11) 0 57 with
    m_I := 0x300,
    m_memory := arrSet (withOpcode blank 0xD0 0x11).m_memory 0x300 0x01 }

/-- The state `stDrawEdge` with `V0 = 58`, one column further right. -/
def stDrawBeyond : Chip8 := withReg stDrawEdge 0 58

/-- A constructed machine (`new` on the blank object) about to run `F033`
with `I = 0` and `V0 = 0`. -/
def stBcdFont : Chip8 := withOpcode (new blank) 0xF0 0x33

/-- A constructed machine about to run `F055` with `I = 0` and `V0 = 0`. -/
def stDumpFont : Chip8 := withOpcode (new blank) 0xF0 0x55

/-- A constructed machine about to run `F033` with `I = 0x300`, `V0 = 255`. -/
def stBcdHigh : Chip8 :=
  { withReg (withOpcode (new blank) 0xF0 0x33) 0 255 with m_I := 0x300 }

/-- State for the call `2300` with the stack pointer at the capacity. -/
def stCallFull : Chip8 := { withOpcode blank 0x23 0x00 with m_sp := CH8_STACK_SIZE }

/-- State for the return `00EE` with the stack pointer at 0. -/
def stReturnEmpty : Chip8 := withOpcode blank 0x00 0xEE

/-- State for the call `2300` with the stack pointer one below the capacity. -/
def stCallLast : Chip8 := { withOpcode blank 0x23 0x00 with m_sp := CH8_STACK_SIZE - 1 }

/-! ## Frame conditions of one decode step -/

/-- The members no loop of `emulateCycle` writes: `t` has the timers, stack
pointer, stack, `I`, program counter, keys and wrap flag of `s`. -/
def SameCore (s t : Chip8) : Prop :=
  t.m_dTimer = s.m_dTimer ∧ t.m_sTimer = s.m_sTimer ∧ t.m_sp = s.m_sp ∧
  t.m_stack = s.m_stack ∧ t.m_I = s.m_I ∧ t.m_pc = s.m_pc ∧ t.m_keys = s.m_keys ∧
  t.m_wrapFlag = s.m_wrapFlag

/-- What the switch on the instruction word `op` can have done when it takes
`s` to `t`, with `b` telling whether the timer update is reached: only `FX15`
and `FX18` write a timer; the switch is left by `return` only from `FX0A` with
none of the keys `0..14` down, and then nothing was written; only `FX33` and
`FX55` write memory, and never below `I`; the stack pointer stays within the
capacity and no slot from the capacity on is written. -/
def StepEffect (op : Nat) (s t : Chip8) (b : Bool) : Prop :=
  (b = true →
    (¬ (op / 4096 % 16 = 15 ∧ op % 256 = 0x15) → t.m_dTimer = s.m_dTimer) ∧
    (¬ (op / 4096 % 16 = 15 ∧ op % 256 = 0x18) → t.m_sTimer = s.m_sTimer)) ∧
  (b = false →
    t = s ∧ op / 4096 % 16 = 15 ∧ op % 256 = 0x0A ∧ ∀ i, i < 0xF → s.m_keys i = false) ∧
  (¬ (op / 4096 % 16 = 15 ∧ (op % 256 = 0x33 ∨ op % 256 = 0x55)) →
    t.m_memory = s.m_memory) ∧
  (∀ a, a < s.m_I → t.m_memory a = s.m_memory a) ∧
  (s.m_sp ≤ CH8_STACK_SIZE → t.m_sp ≤ CH8_STACK_SIZE) ∧
  (∀ i, CH8_STACK_SIZE ≤ i → t.m_stack i = s.m_stack i)

/-! ## The pixels a draw flips -/

/-- Flip the pixel `p = (column, row)` of the display `g`: `g[p] ^= 1`. -/
def flipAt (g : Nat → Nat → Nat) (p : Nat × Nat) : Nat → Nat → Nat :=
  gfxSet g p.1 p.2 (g p.1 p.2 ^^^ 1)

/-- Flip the pixels of `ps` one after the other, first to last. -/
def flipAll (ps : List (Nat × Nat)) (g : Nat → Nat → Nat) : Nat → Nat → Nat :=
  ps.foldl flipAt g

/-- Some pixel of `ps` holds 1 at the moment it is flipped, when the pixels of
`ps` are flipped one after the other on the display `g`. -/
def collides (g : Nat → Nat → Nat) : List (Nat × Nat) → Bool
  | [] => false
  | p :: ps => (g p.1 p.2 == 1) || collides (flipAt g p) ps

/-- Concatenation of the lists `pix lo, pix (lo+1), ...`, `count` of them, in
the order of a counted loop. -/
def catPixels (pix : Nat → List (Nat × Nat)) : Nat → Nat → List (Nat × Nat)
  | _, 0 => []
  | i, k + 1 => pix i ++ catPixels pix (i + 1) k

/-- The pixel that column `col` of sprite row `row` flips in a `DXYN` started
in state `s`, for coordinate registers other than `VF`: the pixel
`(m_V[x] + col, m_V[y + row])` when the sprite bit is set and the bit is not
skipped by the wrap test, no pixel otherwise. -/
def pixelAt (s : Chip8) (x y row col : Nat) : List (Nat × Nat) :=
  if (s.m_memory (s.m_I + row) &&& (0x80 >>> col)) % 256 ≠ 0
      ∧ ¬ (s.m_V x + col > CH8_WIDTH ∧ s.m_wrapFlag = false) then
    [(s.m_V x + col, s.m_V (y + row))]
  else []

/-- The pixels a `DXYN` with operands `x`, `y` and height `n` flips when
started in state `s`, in the order of the two loops (rows, then columns). -/
def drawnPixels (s : Chip8) (x y n : Nat) : List (Nat × Nat) :=
  catPixels (fun row => catPixels (pixelAt s x y row) 0 8) 0 n

/-- The step `f`, run on a state satisfying `R`, stays in `R`, flips exactly
the pixels `ps` in order, and sets `VF` to 1 when one of them held 1 at the
moment it was flipped, leaving `VF` alone otherwise. -/
def Flips (R : Chip8 → Prop) (f : Chip8 → Option Chip8) (ps : List (Nat × Nat)) : Prop :=
  ∀ u u', R u → f u = some u' →
    R u' ∧ u'.m_gfx = flipAll ps u.m_gfx ∧
    u'.m_V 0xF = (if collides u.m_gfx ps = true then 1 else u.m_V 0xF)

/-- State for `DF01` (draw at `(VF, V0)`, one row) with `V0 = 0`, `I = 0x300`,
sprite row `0x40` (only column 1 set), and pixel `(1, 0)` set. -/
def stDrawCollideVF : Chip8 :=
  { withOpcode blank 0xDF 0x01 with
    m_I := 0x300,
    m_memory := arrSet (withOpcode blank 0xDF 0x01).m_memory 0x300 0x40,
    m_gfx := gfxSet blank.m_gfx 1 0 1 }

end Chip8

/-! ## Bit-field arithmetic of the decoder -/

theorem and_F000 (op : Nat) : op &&& 0xF000 = op / 4096 % 16 * 4096 := by
  have h1 : (0xF000 : Nat) = (2 ^ 4 - 1) <<< 12 := by decide
  have h2 : op / 4096 % 16 * 4096 = ((op >>> 12) % 2 ^ 4) <<< 12 := by
    rw [Nat.shiftLeft_eq, Nat.shiftRight_eq_div_pow]; norm_num
  rw [h1, h2]
  apply Nat.eq_of_testBit_eq
  intro i
  simp only [Nat.testBit_and, Nat.testBit_shiftLeft, Nat.testBit_two_pow_sub_one,
    Nat.testBit_mod_two_pow, Nat.testBit_shiftRight]
  by_cases h : 12 ≤ i
  · have : 12 + (i - 12) = i := by omega
    simp [h, this, Bool.and_comm]
  · simp [h]

theorem and_000F (op : Nat) : op &&& 0x000F = op % 16 :=
  Nat.and_pow_two_sub_one_eq_mod op 4

theorem and_00FF (op : Nat) : op &&& 0x00FF = op % 256 :=
  Nat.and_pow_two_sub_one_eq_mod op 8

theorem and_0FFF (op : Nat) : op &&& 0x0FFF = op % 4096 :=
  Nat.and_pow_two_sub_one_eq_mod op 12

theorem decode_x (op : Nat) : ((op >>> 8) &&& 0x0F) % 256 = op / 256 % 16 := by
  rw [and_000F, Nat.shiftRight_eq_div_pow]; norm_num
  omega

theorem decode_y (op : Nat) : ((op >>> 4) &&& 0x0F) % 256 = op / 16 % 16 := by
  rw [and_000F, Nat.shiftRight_eq_div_pow]; norm_num
  omega

theorem and_two_pow_eq (b k : Nat) :
    b &&& 2 ^ k = if b / 2 ^ k % 2 = 1 then 2 ^ k else 0 := by
  apply Nat.eq_of_testBit_eq
  intro i
  rw [Nat.testBit_and, Nat.testBit_two_pow]
  by_cases hki : k = i
  · subst hki
    by_cases hb : b / 2 ^ k % 2 = 1
    · simp [hb, Nat.testBit_to_div_mod, Nat.testBit_two_pow_self]
    · simp [hb, Nat.testBit_to_div_mod]
  · by_cases hb : b / 2 ^ k % 2 = 1
    · simp [hb, hki, Nat.testBit_two_pow_of_ne hki]
    · simp [hb, hki]

theorem sprite_bit_test (b col : Nat) (hc : col < 8) :
    ((b &&& (0x80 >>> col)) % 256 ≠ 0) ↔ b / 2 ^ (7 - col) % 2 = 1 := by
  have h : (0x80 : Nat) >>> col = 2 ^ (7 - col) := by
    interval_cases col <;> rfl
  rw [h, and_two_pow_eq]
  have hlt : 2 ^ (7 - col) < 256 := by
    interval_cases col <;> norm_num
  by_cases hb : b / 2 ^ (7 - col) % 2 = 1
  · simp [hb, Nat.mod_eq_of_lt hlt]
  · simp [hb]

namespace Chip8

/-! ## Field lemmas for the small state transformers -/

@[simp] theorem incrPC_pc (s : Chip8) : (incrPC s).m_pc = (s.m_pc + 2) % 65536 := rfl
@[simp] theorem incrPC_V (s : Chip8) : (incrPC s).m_V = s.m_V := rfl
@[simp] theorem incrPC_I (s : Chip8) : (incrPC s).m_I = s.m_I := rfl
@[simp] theorem incrPC_memory (s : Chip8) : (incrPC s).m_memory = s.m_memory := rfl
@[simp] theorem incrPC_gfx (s : Chip8) : (incrPC s).m_gfx = s.m_gfx := rfl
@[simp] theorem incrPC_sp (s : Chip8) : (incrPC s).m_sp = s.m_sp := rfl
@[simp] theorem incrPC_stack (s : Chip8) : (incrPC s).m_stack = s.m_stack := rfl
@[simp] theorem incrPC_keys (s : Chip8) : (incrPC s).m_keys = s.m_keys := rfl
@[simp] theorem incrPC_dTimer (s : Chip8) : (incrPC s).m_dTimer = s.m_dTimer := rfl
@[simp] theorem incrPC_sTimer (s : Chip8) : (incrPC s).m_sTimer = s.m_sTimer := rfl
@[simp] theorem incrPC_wrapFlag (s : Chip8) : (incrPC s).m_wrapFlag = s.m_wrapFlag := rfl
@[simp] theorem incrPC_drawFlag (s : Chip8) : (incrPC s).m_drawFlag = s.m_drawFlag := rfl

@[simp] theorem updateTimers_pc (s : Chip8) : (updateTimers s).m_pc = s.m_pc := by
  unfold updateTimers; dsimp only; split <;> split <;> rfl
@[simp] theorem updateTimers_V (s : Chip8) : (updateTimers s).m_V = s.m_V := by
  unfold updateTimers; dsimp only; split <;> split <;> rfl
@[simp] theorem updateTimers_I (s : Chip8) : (updateTimers s).m_I = s.m_I := by
  unfold updateTimers; dsimp only; split <;> split <;> rfl
@[simp] theorem updateTimers_memory (s : Chip8) :
    (updateTimers s).m_memory = s.m_memory := by
  unfold updateTimers; dsimp only; split <;> split <;> rfl
@[simp] theorem updateTimers_gfx (s : Chip8) : (updateTimers s).m_gfx = s.m_gfx := by
  unfold updateTimers; dsimp only; split <;> split <;> rfl
@[simp] theorem updateTimers_sp (s : Chip8) : (updateTimers s).m_sp = s.m_sp := by
  unfold updateTimers; dsimp only; split <;> split <;> rfl
@[simp] theorem updateTimers_stack (s : Chip8) :
    (updateTimers s).m_stack = s.m_stack := by
  unfold updateTimers; dsimp only; split <;> split <;> rfl
@[simp] theorem updateTimers_keys (s : Chip8) : (updateTimers s).m_keys = s.m_keys := by
  unfold updateTimers; dsimp only; split <;> split <;> rfl
@[simp] theorem updateTimers_wrapFlag (s : Chip8) :
    (updateTimers s).m_wrapFlag = s.m_wrapFlag := by
  unfold updateTimers; dsimp only; split <;> split <;> rfl
@[simp] theorem updateTimers_drawFlag (s : Chip8) :
    (updateTimers s).m_drawFlag = s.m_drawFlag := by
  unfold updateTimers; dsimp only; split <;> split <;> rfl

@[simp] theorem arrSet_same {α : Type} (a : Nat → α) (i : Nat) (v : α) :
    arrSet a i v i = v := by simp [arrSet]

theorem arrSet_other {α : Type} (a : Nat → α) (i j : Nat) (v : α) (h : j ≠ i) :
    arrSet a i v j = a j := by simp [arrSet, h]

/-- Unfolding of one cycle once the fetch is in bounds: the decoded fields are
the nibbles of the instruction word. -/
theorem emulateCycle_eq (rnd : Nat) (s : Chip8) (hpc : s.m_pc + 1 < CH8_MEM_SIZE) :
    emulateCycle rnd s =
      (decode rnd (fetch s) (fetch s / 256 % 16) (fetch s / 16 % 16)
          { s with m_drawFlag := false }).map
        (fun r => if r.2 then updateTimers r.1 else r.1) := by
  unfold emulateCycle
  simp only [hpc, if_true, decode_x, decode_y]
  rfl

/-! ## Array-filling loops -/

theorem forCount_arrSet {α : Type} (f : Nat → α) (k : Nat) :
    ∀ (lo : Nat) (a : Nat → α) (j : Nat),
      forCount (fun i b => arrSet b i (f i)) lo k a j
        = if lo ≤ j ∧ j < lo + k then f j else a j := by
  induction k with
  | zero =>
    intro lo a j
    have : ¬ (lo ≤ j ∧ j < lo + 0) := by omega
    rw [forCount, if_neg this]
  | succ k ih =>
    intro lo a j
    rw [forCount, ih]
    by_cases h1 : lo + 1 ≤ j ∧ j < lo + 1 + k
    · have h2 : lo ≤ j ∧ j < lo + (k + 1) := by omega
      rw [if_pos h1, if_pos h2]
    · rw [if_neg h1]
      by_cases h3 : j = lo
      · have h2 : lo ≤ j ∧ j < lo + (k + 1) := by omega
        rw [if_pos h2, h3, arrSet_same]
      · have h2 : ¬ (lo ≤ j ∧ j < lo + (k + 1)) := by omega
        rw [if_neg h2, arrSet_other _ _ _ _ h3]

theorem forLoop_arrSet {α : Type} (f : Nat → α) (lo hi : Nat) (a : Nat → α) (j : Nat) :
    forLoop lo hi (fun i b => arrSet b i (f i)) a j
      = if lo ≤ j ∧ j < hi then f j else a j := by
  unfold forLoop
  rw [forCount_arrSet]
  by_cases h : lo ≤ j ∧ j < hi
  · have h2 : lo ≤ j ∧ j < lo + (hi - lo) := by omega
    rw [if_pos h, if_pos h2]
  · have h2 : ¬ (lo ≤ j ∧ j < lo + (hi - lo)) := by omega
    rw [if_neg h, if_neg h2]

theorem forCount_gfxSet_col {α : Type} (v : α) (i : Nat) (k : Nat) :
    ∀ (lo : Nat) (g : Nat → Nat → α) (a b : Nat),
      forCount (fun j h => gfxSet h i j v) lo k g a b
        = if a = i ∧ lo ≤ b ∧ b < lo + k then v else g a b := by
  induction k with
  | zero =>
    intro lo g a b
    have : ¬ (a = i ∧ lo ≤ b ∧ b < lo + 0) := by omega
    rw [forCount, if_neg this]
  | succ k ih =>
    intro lo g a b
    rw [forCount, ih]
    by_cases h1 : a = i ∧ lo + 1 ≤ b ∧ b < lo + 1 + k
    · have h2 : a = i ∧ lo ≤ b ∧ b < lo + (k + 1) := by omega
      rw [if_pos h1, if_pos h2]
    · rw [if_neg h1]
      by_cases h3 : a = i ∧ b = lo
      · have h2 : a = i ∧ lo ≤ b ∧ b < lo + (k + 1) := by omega
        rw [if_pos h2]; simp [gfxSet, h3]
      · have h2 : ¬ (a = i ∧ lo ≤ b ∧ b < lo + (k + 1)) := by omega
        rw [if_neg h2]; simp [gfxSet, h3]

theorem forCount_gfxSet_all {α : Type} (v : α) (hgt : Nat) (k : Nat) :
    ∀ (lo : Nat) (g : Nat → Nat → α) (a b : Nat),
      forCount (fun i h => forLoop 0 hgt (fun j h => gfxSet h i j v) h) lo k g a b
        = if (lo ≤ a ∧ a < lo + k) ∧ b < hgt then v else g a b := by
  induction k with
  | zero =>
    intro lo g a b
    have : ¬ ((lo ≤ a ∧ a < lo + 0) ∧ b < hgt) := by omega
    rw [forCount, if_neg this]
  | succ k ih =>
    intro lo g a b
    rw [forCount, ih]
    unfold forLoop
    rw [forCount_gfxSet_col]
    by_cases h1 : (lo + 1 ≤ a ∧ a < lo + 1 + k) ∧ b < hgt
    · have h2 : (lo ≤ a ∧ a < lo + (k + 1)) ∧ b < hgt := by omega
      rw [if_pos h1, if_pos h2]
    · rw [if_neg h1]
      by_cases h3 : a = lo ∧ 0 ≤ b ∧ b < 0 + (hgt - 0)
      · have h2 : (lo ≤ a ∧ a < lo + (k + 1)) ∧ b < hgt := by omega
        rw [if_pos h2, if_pos h3]
      · have h2 : ¬ ((lo ≤ a ∧ a < lo + (k + 1)) ∧ b < hgt) := by omega
        rw [if_neg h2, if_neg h3]

theorem clearDisp_gfx (s : Chip8) (a b : Nat) :
    (clearDisp s).m_gfx a b = if a < CH8_WIDTH ∧ b < CH8_HEIGHT then 0 else s.m_gfx a b := by
  have h0 : (clearDisp s).m_gfx
      = forCount (fun i h => forLoop 0 CH8_HEIGHT (fun j h => gfxSet h i j 0) h)
          0 (CH8_WIDTH - 0) s.m_gfx := rfl
  rw [h0, forCount_gfxSet_all]
  by_cases h : a < CH8_WIDTH ∧ b < CH8_HEIGHT
  · have h2 : (0 ≤ a ∧ a < 0 + (CH8_WIDTH - 0)) ∧ b < CH8_HEIGHT := by omega
    rw [if_pos h, if_pos h2]
  · have h2 : ¬ ((0 ≤ a ∧ a < 0 + (CH8_WIDTH - 0)) ∧ b < CH8_HEIGHT) := by omega
    rw [if_neg h, if_neg h2]

theorem init_V (s : Chip8) (j : Nat) :
    (init s).m_V j = if j < 0xF then 0 else s.m_V j := by
  have h : (init s).m_V = forLoop 0 0xF (fun i v => arrSet v i 0) s.m_V := rfl
  rw [h, forLoop_arrSet (fun _ => 0)]
  simp

theorem init_keys (s : Chip8) (j : Nat) :
    (init s).m_keys j = if j < 0xF then false else s.m_keys j := by
  have h : (init s).m_keys = forLoop 0 0xF (fun i k => arrSet k i false) s.m_keys := rfl
  rw [h, forLoop_arrSet (fun _ => false)]
  simp

theorem regDump_loop (k : Nat) :
    ∀ (lo : Nat) (s : Chip8), s.m_I + lo + k ≤ CH8_MEM_SIZE → lo + k ≤ CH8_NUM_REGS →
      forCountM regDumpStep lo k s = some
        { s with m_memory := fun a =>
            if s.m_I + lo ≤ a ∧ a < s.m_I + lo + k then s.m_V (a - s.m_I)
            else s.m_memory a } := by
  induction k with
  | zero =>
    intro lo s _ _
    rw [forCountM]
    cases s
    simp only [Option.some.injEq, Chip8.mk.injEq, true_and, and_true]
    funext a
    rw [if_neg (by omega)]
  | succ k ih =>
    intro lo s h1 h2
    have hb : s.m_I + lo < CH8_MEM_SIZE ∧ lo < CH8_NUM_REGS := by omega
    rw [forCountM, regDumpStep, if_pos hb, Option.some_bind, ih _ _ (by simpa using by omega)
      (by omega)]
    congr 1
    simp only [Chip8.mk.injEq, true_and, and_true]
    funext a
    by_cases c1 : s.m_I + (lo + 1) ≤ a ∧ a < s.m_I + (lo + 1) + k
    · have c2 : s.m_I + lo ≤ a ∧ a < s.m_I + lo + (k + 1) := by omega
      rw [if_pos c1, if_pos c2]
    · rw [if_neg c1]
      by_cases c3 : a = s.m_I + lo
      · have c2 : s.m_I + lo ≤ a ∧ a < s.m_I + lo + (k + 1) := by omega
        rw [if_pos c2, c3, arrSet_same]
        congr 1; omega
      · have c2 : ¬ (s.m_I + lo ≤ a ∧ a < s.m_I + lo + (k + 1)) := by omega
        rw [if_neg c2, arrSet_other _ _ _ _ c3]

theorem regLoad_loop (k : Nat) :
    ∀ (lo : Nat) (s : Chip8), s.m_I + lo + k ≤ CH8_MEM_SIZE → lo + k ≤ CH8_NUM_REGS →
      forCountM regLoadStep lo k s = some
        { s with m_V := fun j =>
            if lo ≤ j ∧ j < lo + k then s.m_memory (s.m_I + j) else s.m_V j } := by
  induction k with
  | zero =>
    intro lo s _ _
    rw [forCountM]
    cases s
    simp only [Option.some.injEq, Chip8.mk.injEq, true_and, and_true]
    funext j
    rw [if_neg (by omega)]
  | succ k ih =>
    intro lo s h1 h2
    have hb : s.m_I + lo < CH8_MEM_SIZE ∧ lo < CH8_NUM_REGS := by omega
    rw [forCountM, regLoadStep, if_pos hb, Option.some_bind, ih _ _ (by simpa using by omega)
      (by omega)]
    congr 1
    simp only [Chip8.mk.injEq, true_and, and_true]
    funext j
    by_cases c1 : lo + 1 ≤ j ∧ j < lo + 1 + k
    · have c2 : lo ≤ j ∧ j < lo + (k + 1) := by omega
      rw [if_pos c1, if_pos c2]
    · rw [if_neg c1]
      by_cases c3 : j = lo
      · have c2 : lo ≤ j ∧ j < lo + (k + 1) := by omega
        rw [if_pos c2, c3, arrSet_same]
      · have c2 : ¬ (lo ≤ j ∧ j < lo + (k + 1)) := by omega
        rw [if_neg c2, arrSet_other _ _ _ _ c3]

theorem regDump_all (x : Nat) (s : Chip8) (hI : s.m_I + x < CH8_MEM_SIZE)
    (hx : x < CH8_NUM_REGS) :
    forLoopM 0 (x + 1) regDumpStep s = some
      { s with m_memory := fun a =>
          if s.m_I ≤ a ∧ a ≤ s.m_I + x then s.m_V (a - s.m_I) else s.m_memory a } := by
  unfold forLoopM
  rw [regDump_loop (x + 1 - 0) 0 s (by simpa using by omega) (by simpa using by omega)]
  congr 2
  funext a
  by_cases c : s.m_I ≤ a ∧ a ≤ s.m_I + x
  · rw [if_pos c, if_pos (by simpa using by omega)]
  · rw [if_neg c, if_neg (by simpa using by omega)]

theorem regLoad_all (x : Nat) (s : Chip8) (hI : s.m_I + x < CH8_MEM_SIZE)
    (hx : x < CH8_NUM_REGS) :
    forLoopM 0 (x + 1) regLoadStep s = some
      { s with m_V := fun j => if j ≤ x then s.m_memory (s.m_I + j) else s.m_V j } := by
  unfold forLoopM
  rw [regLoad_loop (x + 1 - 0) 0 s (by simpa using by omega) (by simpa using by omega)]
  congr 2
  funext j
  by_cases c : j ≤ x
  · rw [if_pos c, if_pos (by simpa using by omega)]
  · rw [if_neg c, if_neg (by simpa using by omega)]

theorem decode_classF (rnd op x y : Nat) (s : Chip8)
    (h : op / 4096 % 16 * 4096 = 0xF000) : decode rnd op x y s = classF op x s := by
  simp [decode, and_F000, h]

theorem classF_dump (op x : Nat) (s : Chip8) (h : op % 256 = 0x55) :
    classF op x s = (forLoopM 0 (x + 1) regDumpStep s).bind (fun s => brk (incrPC s)) := by
  simp [classF, and_00FF, h]

theorem classF_load (op x : Nat) (s : Chip8) (h : op % 256 = 0x65) :
    classF op x s = (forLoopM 0 (x + 1) regLoadStep s).bind (fun s => brk (incrPC s)) := by
  simp [classF, and_00FF, h]

/-- One cycle on `FX55` with the dumped range inside the memory. -/
theorem emulateCycle_dump (rnd : Nat) (s : Chip8) (x : Nat) (hx : x < 16)
    (hpc : s.m_pc + 1 < CH8_MEM_SIZE) (hop : fetch s = 0xF055 + 0x100 * x)
    (hI : s.m_I + x < CH8_MEM_SIZE) :
    emulateCycle rnd s = some (updateTimers (incrPC
      { s with
        m_drawFlag := false,
        m_memory := fun a =>
          if s.m_I ≤ a ∧ a ≤ s.m_I + x then s.m_V (a - s.m_I) else s.m_memory a })) := by
  have hX : fetch s / 256 % 16 = x := by omega
  rw [emulateCycle_eq rnd s hpc, hX, decode_classF _ _ _ _ _ (by omega),
    classF_dump _ _ _ (by omega), regDump_all x { s with m_drawFlag := false } hI hx]
  rfl

/-- One cycle on `FX65` with the loaded range inside the memory. -/
theorem emulateCycle_load (rnd : Nat) (s : Chip8) (x : Nat) (hx : x < 16)
    (hpc : s.m_pc + 1 < CH8_MEM_SIZE) (hop : fetch s = 0xF065 + 0x100 * x)
    (hI : s.m_I + x < CH8_MEM_SIZE) :
    emulateCycle rnd s = some (updateTimers (incrPC
      { s with
        m_drawFlag := false,
        m_V := fun j => if j ≤ x then s.m_memory (s.m_I + j) else s.m_V j })) := by
  have hX : fetch s / 256 % 16 = x := by omega
  rw [emulateCycle_eq rnd s hpc, hX, decode_classF _ _ _ _ _ (by omega),
    classF_load _ _ _ (by omega), regLoad_all x { s with m_drawFlag := false } hI hx]
  rfl

/-! ## The sprite loops -/

theorem SameDrawInputs.refl (x y n : Nat) (t : Chip8) : SameDrawInputs x y n t t :=
  ⟨rfl, fun _ _ => rfl, rfl, fun _ _ => rfl, rfl⟩

theorem SameDrawInputs.symm {x y n : Nat} {t u : Chip8} (h : SameDrawInputs x y n t u) :
    SameDrawInputs x y n u t :=
  ⟨h.1.symm, fun r hr => (h.2.1 r hr).symm, h.2.2.1.symm,
    fun r hr => (h.2.2.2.1 r hr).symm, h.2.2.2.2.symm⟩

theorem SameDrawInputs.trans {x y n : Nat} {t u v : Chip8}
    (h : SameDrawInputs x y n t u) (k : SameDrawInputs x y n u v) :
    SameDrawInputs x y n t v :=
  ⟨h.1.trans k.1, fun r hr => (h.2.1 r hr).trans (k.2.1 r hr), h.2.2.1.trans k.2.2.1,
    fun r hr => (h.2.2.2.1 r hr).trans (k.2.2.2.1 r hr), h.2.2.2.2.trans k.2.2.2.2⟩

/-- A counted loop is XOR-uniform when its body is, on the whole class of the
start state. -/
theorem forCountM_xorUniform (R : Chip8 → Chip8 → Prop)
    (hrefl : ∀ t, R t t) (hsymm : ∀ t u, R t u → R u t)
    (htrans : ∀ t u v, R t u → R u v → R t v)
    (body : Nat → Chip8 → Option Chip8) (k : Nat) :
    ∀ (lo : Nat) (t : Chip8),
      (∀ i, lo ≤ i → i < lo + k → ∀ t0, R t t0 → XorUniform R (body i) t0) →
      XorUniform R (forCountM body lo k) t := by
  induction k with
  | zero =>
    intro lo t _ t' _
    refine ⟨fun _ _ => 0, fun u hu => ⟨u, rfl, hu, fun i j => (Nat.xor_zero _).symm⟩⟩
  | succ k ih =>
    intro lo t hbody t' ht'
    rw [forCountM] at ht'
    obtain ⟨t1, hb1, hrest⟩ := Option.bind_eq_some.mp ht'
    obtain ⟨M1, hM1⟩ := hbody lo (Nat.le_refl _) (by omega) t (hrefl t) t1 hb1
    have hRt1 : R t t1 := by
      obtain ⟨u1, hu1, hR, _⟩ := hM1 t (hrefl t)
      rw [hb1] at hu1
      cases hu1
      exact hR
    have hbody1 : ∀ i, lo + 1 ≤ i → i < lo + 1 + k → ∀ t0, R t1 t0 →
        XorUniform R (body i) t0 := by
      intro i h1 h2 t0 h0
      exact hbody i (by omega) (by omega) t0 (htrans _ _ _ hRt1 h0)
    obtain ⟨M2, hM2⟩ := ih (lo + 1) t1 hbody1 t' hrest
    refine ⟨fun i j => M1 i j ^^^ M2 i j, ?_⟩
    intro u hu
    obtain ⟨u1, hu1, hRu1, hg1⟩ := hM1 u hu
    obtain ⟨u', hu', hRu', hg2⟩ := hM2 u1 (htrans _ _ _ (hsymm _ _ hRt1) hRu1)
    refine ⟨u', ?_, htrans _ _ _ hRt1 hRu', ?_⟩
    · rw [forCountM, hu1]
      exact hu'
    · intro i j
      rw [hg2, hg1, Nat.xor_assoc]

/-- The inner step of `DXYN` when the sprite bit is set, the pixel is not
skipped and the accesses are in bounds, for coordinate registers other than
`VF`: the pixel at `(Vx + col, V(y+row))` is flipped, and `VF` is set when it
was 1. -/
theorem drawCol_flip (x y row b col : Nat) (u : Chip8) (hxF : x ≠ 0xF)
    (hyr : y + row ≠ 0xF)
    (hbit : (b &&& (0x80 >>> col)) % 256 ≠ 0)
    (hskip : ¬ (u.m_V x + col > CH8_WIDTH ∧ u.m_wrapFlag = false))
    (hin : x < CH8_NUM_REGS ∧ y + row < CH8_NUM_REGS
        ∧ u.m_V x + col < CH8_WIDTH ∧ u.m_V (y + row) < CH8_HEIGHT) :
    drawCol x y row b col u = some
      { u with
        m_V := if u.m_gfx (u.m_V x + col) (u.m_V (y + row)) = 1
          then arrSet u.m_V 0xF 1 else u.m_V,
        m_gfx := gfxSet u.m_gfx (u.m_V x + col) (u.m_V (y + row))
          (u.m_gfx (u.m_V x + col) (u.m_V (y + row)) ^^^ 1) } := by
  unfold drawCol
  dsimp only
  rw [if_pos hbit, if_neg hskip, if_pos hin]
  by_cases hp : u.m_gfx (u.m_V x + col) (u.m_V (y + row)) = 1
  · simp [hp, arrSet_other _ _ _ _ hxF, arrSet_other _ _ _ _ hyr, hin.2.2.1, hin.2.2.2]
  · simp [hp, hin.2.2.1, hin.2.2.2]

theorem drawCol_xorUniform (x y n row b col : Nat) (hxF : x ≠ 0xF)
    (hyF : ∀ r, r < n → y + r ≠ 0xF) (hrow : row < n) (t : Chip8) :
    XorUniform (SameDrawInputs x y n) (drawCol x y row b col) t := by
  intro t' ht'
  by_cases hbit : (b &&& (0x80 >>> col)) % 256 ≠ 0
  · by_cases hskip : t.m_V x + col > CH8_WIDTH ∧ t.m_wrapFlag = false
    · refine ⟨fun _ _ => 0, fun u hu => ⟨u, ?_, hu, fun i j => (Nat.xor_zero _).symm⟩⟩
      have hskip' : u.m_V x + col > CH8_WIDTH ∧ u.m_wrapFlag = false := by
        rw [← hu.1, ← hu.2.2.2.2]; exact hskip
      simp [drawCol, hbit, hskip']
    · by_cases hin : x < CH8_NUM_REGS ∧ y + row < CH8_NUM_REGS
          ∧ t.m_V x + col < CH8_WIDTH ∧ t.m_V (y + row) < CH8_HEIGHT
      · refine ⟨fun i j => if i = t.m_V x + col ∧ j = t.m_V (y + row) then 1 else 0, ?_⟩
        intro u hu
        have ex : u.m_V x = t.m_V x := hu.1.symm
        have ey : u.m_V (y + row) = t.m_V (y + row) := (hu.2.1 row hrow).symm
        have hskip' : ¬ (u.m_V x + col > CH8_WIDTH ∧ u.m_wrapFlag = false) := by
          rw [ex, ← hu.2.2.2.2]; exact hskip
        have hin' : x < CH8_NUM_REGS ∧ y + row < CH8_NUM_REGS
            ∧ u.m_V x + col < CH8_WIDTH ∧ u.m_V (y + row) < CH8_HEIGHT := by
          rw [ex, ey]; exact hin
        refine ⟨_, drawCol_flip x y row b col u hxF (hyF row hrow) hbit hskip' hin', ?_, ?_⟩
        · refine ⟨?_, ?_, hu.2.2.1, hu.2.2.2.1, hu.2.2.2.2⟩
          · dsimp only
            split
            · rw [arrSet_other _ _ _ _ hxF]; exact hu.1
            · exact hu.1
          · intro r hr
            dsimp only
            split
            · rw [arrSet_other _ _ _ _ (hyF r hr)]; exact hu.2.1 r hr
            · exact hu.2.1 r hr
        · intro i j
          dsimp only
          rw [ex, ey]
          unfold gfxSet
          by_cases hij : i = t.m_V x + col ∧ j = t.m_V (y + row)
          · rw [if_pos hij, if_pos hij, hij.1, hij.2]
          · rw [if_neg hij, if_neg hij, Nat.xor_zero]
      · exfalso
        simp [drawCol, hbit, hskip, hin] at ht'
  · refine ⟨fun _ _ => 0, fun u hu => ⟨u, ?_, hu, fun i j => (Nat.xor_zero _).symm⟩⟩
    simp [drawCol, hbit]

theorem drawRow_xorUniform (x y n row : Nat) (hxF : x ≠ 0xF)
    (hyF : ∀ r, r < n → y + r ≠ 0xF) (hrow : row < n) (t : Chip8) :
    XorUniform (SameDrawInputs x y n) (drawRow x y row) t := by
  intro t' ht'
  unfold drawRow at ht'
  by_cases hI : t.m_I + row < CH8_MEM_SIZE
  · rw [if_pos hI] at ht'
    obtain ⟨M, hM⟩ := forCountM_xorUniform (SameDrawInputs x y n)
      (SameDrawInputs.refl x y n) (fun _ _ h => h.symm) (fun _ _ _ h k => h.trans k)
      (drawCol x y row (t.m_memory (t.m_I + row))) (8 - 0) 0 t
      (fun i _ _ t0 _ => drawCol_xorUniform x y n row _ i hxF hyF hrow t0) t' ht'
    refine ⟨M, fun u hu => ?_⟩
    obtain ⟨u', hu', hR, hg⟩ := hM u hu
    refine ⟨u', ?_, hR, hg⟩
    unfold drawRow
    rw [if_pos (by rw [← hu.2.2.1]; exact hI), ← hu.2.2.2.1 row hrow]
    exact hu'
  · rw [if_neg hI] at ht'
    cases ht'

theorem drawLoop_xorUniform (x y n : Nat) (hxF : x ≠ 0xF)
    (hyF : ∀ r, r < n → y + r ≠ 0xF) (t : Chip8) :
    XorUniform (SameDrawInputs x y n) (forLoopM 0 n (drawRow x y)) t :=
  forCountM_xorUniform (SameDrawInputs x y n)
    (SameDrawInputs.refl x y n) (fun _ _ h => h.symm) (fun _ _ _ h k => h.trans k)
    (drawRow x y) (n - 0) 0 t
    (fun i _ hi t0 _ => drawRow_xorUniform x y n i hxF hyF (by omega) t0)

theorem forCountM_preserves {σ : Type} (P : σ → Prop) (body : Nat → σ → Option σ)
    (hb : ∀ i s t, P s → body i s = some t → P t) (k : Nat) :
    ∀ (lo : Nat) (s t : σ), P s → forCountM body lo k s = some t → P t := by
  induction k with
  | zero =>
    intro lo s t hs h
    rw [forCountM] at h
    cases h
    exact hs
  | succ k ih =>
    intro lo s t hs h
    rw [forCountM] at h
    obtain ⟨s1, h1, h2⟩ := Option.bind_eq_some.mp h
    exact ih (lo + 1) s1 t (hb lo s s1 hs h1) h2

/-- The inner step of `DXYN` writes neither the program counter nor memory. -/
theorem drawCol_frame (x y row b col : Nat) (s t : Chip8)
    (h : drawCol x y row b col s = some t) :
    t.m_pc = s.m_pc ∧ t.m_memory = s.m_memory := by
  unfold drawCol at h
  dsimp only at h
  split_ifs at h <;> (cases h; exact ⟨rfl, rfl⟩)

theorem drawRow_frame (x y row : Nat) (s t : Chip8) (h : drawRow x y row s = some t) :
    t.m_pc = s.m_pc ∧ t.m_memory = s.m_memory := by
  unfold drawRow at h
  split at h
  · exact forCountM_preserves (fun u => u.m_pc = s.m_pc ∧ u.m_memory = s.m_memory)
      (drawCol x y row (s.m_memory (s.m_I + row)))
      (fun i a b ha hab => by
        obtain ⟨h1, h2⟩ := drawCol_frame x y row _ i a b hab
        exact ⟨h1.trans ha.1, h2.trans ha.2⟩)
      (8 - 0) 0 s t ⟨rfl, rfl⟩ h
  · cases h

theorem drawLoop_frame (x y n : Nat) (s t : Chip8)
    (h : forLoopM 0 n (drawRow x y) s = some t) :
    t.m_pc = s.m_pc ∧ t.m_memory = s.m_memory :=
  forCountM_preserves (fun u => u.m_pc = s.m_pc ∧ u.m_memory = s.m_memory)
    (drawRow x y)
    (fun i a b ha hab => by
      obtain ⟨h1, h2⟩ := drawRow_frame x y i a b hab
      exact ⟨h1.trans ha.1, h2.trans ha.2⟩)
    (n - 0) 0 s t ⟨rfl, rfl⟩ h

/-- One cycle on `DXYN`: `VF` is cleared, the row loop runs, the draw flag is
set and the program counter advanced; then the timers tick. -/
theorem emulateCycle_draw (rnd : Nat) (s : Chip8) (x y n : Nat)
    (hx : x < 16) (hy : y < 16) (hn : n < 16)
    (hpc : s.m_pc + 1 < CH8_MEM_SIZE)
    (hop : fetch s = 0xD000 + 0x100 * x + 0x10 * y + n) :
    emulateCycle rnd s =
      (forLoopM 0 n (drawRow x y)
          { s with m_drawFlag := false, m_V := arrSet s.m_V 0xF 0 }).map
        (fun t => updateTimers (incrPC { t with m_drawFlag := true })) := by
  have hX : fetch s / 256 % 16 = x := by omega
  have hY : fetch s / 16 % 16 = y := by omega
  have hK : fetch s / 4096 % 16 * 4096 = 0xD000 := by omega
  have hN : fetch s % 16 = n := by omega
  rw [emulateCycle_eq rnd s hpc, hX, hY]
  simp only [decode, draw, and_F000, and_000F, hK, hN]
  norm_num
  cases forLoopM 0 n (drawRow x y)
      { s with m_drawFlag := false, m_V := arrSet s.m_V 0xF 0 } with
  | none => rfl
  | some t => rfl

/-! ## Dispatch of the outer switch -/

theorem fetch_lt (s : Chip8) : fetch s < 65536 := by
  unfold fetch
  exact Nat.mod_lt _ (by norm_num)

theorem decode_class0 (rnd op x y : Nat) (s : Chip8)
    (h : op / 4096 % 16 * 4096 = 0x0000) : decode rnd op x y s = class0 op s := by
  simp [decode, and_F000, h]

theorem decode_class8 (rnd op x y : Nat) (s : Chip8)
    (h : op / 4096 % 16 * 4096 = 0x8000) : decode rnd op x y s = class8 op x y s := by
  simp [decode, and_F000, h]

theorem decode_classE (rnd op x y : Nat) (s : Chip8)
    (h : op / 4096 % 16 * 4096 = 0xE000) : decode rnd op x y s = classE op x s := by
  simp [decode, and_F000, h]

theorem class0_default (op : Nat) (s : Chip8)
    (h1 : op % 256 ≠ 0xE0) (h2 : op % 256 ≠ 0xEE) : class0 op s = brk s := by
  simp [class0, and_00FF, h1, h2]

theorem class8_default (op x y : Nat) (s : Chip8)
    (h1 : 8 ≤ op % 16) (h2 : op % 16 ≠ 0xE) : class8 op x y s = brk s := by
  have h16 : op % 16 < 16 := Nat.mod_lt _ (by norm_num)
  have e0 : op % 16 ≠ 0 := by omega
  have e1 : op % 16 ≠ 1 := by omega
  have e2 : op % 16 ≠ 2 := by omega
  have e3 : op % 16 ≠ 3 := by omega
  have e4 : op % 16 ≠ 4 := by omega
  have e5 : op % 16 ≠ 5 := by omega
  have e6 : op % 16 ≠ 6 := by omega
  have e7 : op % 16 ≠ 7 := by omega
  simp [class8, and_000F, e0, e1, e2, e3, e4, e5, e6, e7, h2]

theorem classE_default (op x : Nat) (s : Chip8)
    (h1 : op % 256 ≠ 0x9E) (h2 : op % 256 ≠ 0xA1) : classE op x s = brk s := by
  simp [classE, and_00FF, h1, h2]

theorem classF_default (op x : Nat) (s : Chip8)
    (h : op % 256 ∉ [0x07, 0x0A, 0x15, 0x18, 0x1E, 0x29, 0x33, 0x55, 0x65]) :
    classF op x s = brk s := by
  simp only [List.mem_cons, List.mem_singleton, not_or, List.not_mem_nil, not_false_eq_true,
    and_true] at h
  obtain ⟨e1, e2, e3, e4, e5, e6, e7, e8, e9⟩ := h
  simp [classF, and_00FF, e1, e2, e3, e4, e5, e6, e7, e8, e9]

theorem updateTimers_dTimer (s : Chip8) : (updateTimers s).m_dTimer = s.m_dTimer - 1 := by
  unfold updateTimers
  dsimp only
  split <;> split <;> simp_all

theorem updateTimers_sTimer (s : Chip8) : (updateTimers s).m_sTimer = s.m_sTimer - 1 := by
  unfold updateTimers
  dsimp only
  split <;> split <;> simp_all

theorem fetch_eq_bytes (s : Chip8) (h0 : s.m_memory s.m_pc < 256)
    (h1 : s.m_memory (s.m_pc + 1) < 256) :
    fetch s = s.m_memory s.m_pc * 256 + s.m_memory (s.m_pc + 1) := by
  unfold fetch
  have e : (s.m_memory s.m_pc <<< 8) ||| s.m_memory (s.m_pc + 1)
      = 2 ^ 8 * s.m_memory s.m_pc + s.m_memory (s.m_pc + 1) := by
    rw [Nat.shiftLeft_eq, Nat.mul_comm]
    exact (Nat.mul_add_lt_is_or (by norm_num; exact h1) _).symm
  rw [e]
  omega

theorem incrPC_twice_pc (s : Chip8) (h : s.m_pc + 1 < CH8_MEM_SIZE) :
    (incrPC (incrPC s)).m_pc = s.m_pc + 4 := by
  have hm : CH8_MEM_SIZE = 4096 := rfl
  simp only [incrPC_pc]
  omega

theorem incrPC_once_pc (s : Chip8) (h : s.m_pc + 1 < CH8_MEM_SIZE) :
    (incrPC s).m_pc = s.m_pc + 2 := by
  have hm : CH8_MEM_SIZE = 4096 := rfl
  simp only [incrPC_pc]
  omega

/-! ## Frame conditions of the loops and of the decode switch -/

theorem sameCore_refl (s : Chip8) : SameCore s s :=
  ⟨rfl, rfl, rfl, rfl, rfl, rfl, rfl, rfl⟩

theorem sameCore_trans {s t u : Chip8} (h : SameCore s t) (k : SameCore t u) :
    SameCore s u :=
  ⟨k.1.trans h.1, k.2.1.trans h.2.1, k.2.2.1.trans h.2.2.1, k.2.2.2.1.trans h.2.2.2.1,
    k.2.2.2.2.1.trans h.2.2.2.2.1, k.2.2.2.2.2.1.trans h.2.2.2.2.2.1,
    k.2.2.2.2.2.2.1.trans h.2.2.2.2.2.2.1, k.2.2.2.2.2.2.2.trans h.2.2.2.2.2.2.2⟩

theorem drawCol_core (x y row b col : Nat) (s t : Chip8)
    (h : drawCol x y row b col s = some t) : SameCore s t := by
  unfold drawCol at h
  dsimp only at h
  split_ifs at h <;> (cases h; exact ⟨rfl, rfl, rfl, rfl, rfl, rfl, rfl, rfl⟩)

theorem drawRow_core (x y row : Nat) (s t : Chip8) (h : drawRow x y row s = some t) :
    SameCore s t ∧ t.m_memory = s.m_memory := by
  unfold drawRow at h
  split at h
  · exact forCountM_preserves (fun u => SameCore s u ∧ u.m_memory = s.m_memory)
      (drawCol x y row (s.m_memory (s.m_I + row)))
      (fun i a b ha hab =>
        ⟨sameCore_trans ha.1 (drawCol_core x y row _ i a b hab),
          (drawCol_frame x y row _ i a b hab).2.trans ha.2⟩)
      (8 - 0) 0 s t ⟨sameCore_refl s, rfl⟩ h
  · cases h

theorem drawLoop_core (x y n : Nat) (s t : Chip8)
    (h : forLoopM 0 n (drawRow x y) s = some t) :
    SameCore s t ∧ t.m_memory = s.m_memory :=
  forCountM_preserves (fun u => SameCore s u ∧ u.m_memory = s.m_memory)
    (drawRow x y)
    (fun i a b ha hab =>
      ⟨sameCore_trans ha.1 (drawRow_core x y i a b hab).1,
        (drawRow_core x y i a b hab).2.trans ha.2⟩)
    (n - 0) 0 s t ⟨sameCore_refl s, rfl⟩ h

theorem regDump_core (n : Nat) (s t : Chip8)
    (h : forLoopM 0 n regDumpStep s = some t) :
    SameCore s t ∧ ∀ a, a < s.m_I → t.m_memory a = s.m_memory a :=
  forCountM_preserves
    (fun u => SameCore s u ∧ ∀ a, a < s.m_I → u.m_memory a = s.m_memory a)
    regDumpStep
    (fun i a b ha hab => by
      unfold regDumpStep at hab
      split at hab
      · cases hab
        refine ⟨sameCore_trans ha.1 ⟨rfl, rfl, rfl, rfl, rfl, rfl, rfl, rfl⟩, ?_⟩
        intro c hc
        have hI : a.m_I = s.m_I := ha.1.2.2.2.2.1
        show arrSet a.m_memory (a.m_I + i) (a.m_V i) c = s.m_memory c
        rw [arrSet_other _ _ _ _ (by omega)]
        exact ha.2 c hc
      · cases hab)
    (n - 0) 0 s t ⟨sameCore_refl s, fun _ _ => rfl⟩ h

theorem regLoad_core (n : Nat) (s t : Chip8)
    (h : forLoopM 0 n regLoadStep s = some t) :
    SameCore s t ∧ t.m_memory = s.m_memory :=
  forCountM_preserves (fun u => SameCore s u ∧ u.m_memory = s.m_memory)
    regLoadStep
    (fun i a b ha hab => by
      unfold regLoadStep at hab
      split at hab
      · cases hab
        exact ⟨sameCore_trans ha.1 ⟨rfl, rfl, rfl, rfl, rfl, rfl, rfl, rfl⟩, ha.2⟩
      · cases hab)
    (n - 0) 0 s t ⟨sameCore_refl s, rfl⟩ h

/-- The key scan of `FX0A` writes only `Vx`; when it reports no key it wrote
nothing and none of the keys it looked at is down. -/
theorem keyScan_spec (x : Nat) (k : Nat) :
    ∀ (i : Nat) (s : Chip8),
      SameCore s (keyScan x i k (s, false)).1 ∧
      (keyScan x i k (s, false)).1.m_memory = s.m_memory ∧
      ((keyScan x i k (s, false)).2 = false →
        (keyScan x i k (s, false)).1 = s ∧ ∀ j, i ≤ j → j < i + k → s.m_keys j = false) := by
  induction k with
  | zero =>
    intro i s
    refine ⟨sameCore_refl s, rfl, fun _ => ⟨rfl, fun j h1 h2 => by omega⟩⟩
  | succ k ih =>
    intro i s
    rw [keyScan]
    by_cases hk : s.m_keys i = true
    · rw [if_pos hk]
      refine ⟨⟨rfl, rfl, rfl, rfl, rfl, rfl, rfl, rfl⟩, rfl, fun h => by cases h⟩
    · rw [if_neg hk]
      obtain ⟨h1, h2, h3⟩ := ih (i + 1) s
      refine ⟨h1, h2, fun h => ⟨(h3 h).1, fun j hj1 hj2 => ?_⟩⟩
      by_cases hji : j = i
      · rw [hji]; simpa using hk
      · exact (h3 h).2 j (by omega) (by omega)

theorem stepEffect_same (op : Nat) (s t : Chip8)
    (hd : t.m_dTimer = s.m_dTimer) (hs : t.m_sTimer = s.m_sTimer)
    (hm : t.m_memory = s.m_memory) (hp : t.m_sp = s.m_sp) (hk : t.m_stack = s.m_stack) :
    StepEffect op s t true :=
  ⟨fun _ => ⟨fun _ => hd, fun _ => hs⟩, fun h => absurd h (by decide), fun _ => hm,
    fun a _ => (by rw [hm]), fun h => (by rw [hp]; exact h), fun i _ => (by rw [hk])⟩

theorem class0_effect (op : Nat) (s t : Chip8) (b : Bool)
    (h : class0 op s = some (t, b)) : StepEffect op s t b := by
  unfold class0 at h
  split_ifs at h with h1 h2 h3
  · simp only [brk, Option.some.injEq, Prod.mk.injEq] at h
    obtain ⟨rfl, rfl⟩ := h
    exact stepEffect_same _ _ _ rfl rfl rfl rfl rfl
  · simp only [brk, Option.some.injEq, Prod.mk.injEq] at h
    obtain ⟨rfl, rfl⟩ := h
    refine ⟨fun _ => ⟨fun _ => rfl, fun _ => rfl⟩, fun h => absurd h (by decide),
      fun _ => rfl, fun a _ => rfl, fun hs => ?_, fun i _ => rfl⟩
    show s.m_sp - 1 ≤ CH8_STACK_SIZE
    omega
  · simp only [brk, Option.some.injEq, Prod.mk.injEq] at h
    obtain ⟨rfl, rfl⟩ := h
    exact stepEffect_same _ _ _ rfl rfl rfl rfl rfl

theorem class8_effect (op x y : Nat) (s t : Chip8) (b : Bool)
    (h : class8 op x y s = some (t, b)) : StepEffect op s t b := by
  have h16 : op % 16 < 16 := Nat.mod_lt _ (by norm_num)
  rw [class8] at h
  simp only [and_000F] at h
  interval_cases hn : op % 16 <;>
    (simp only [brk, Option.some.injEq, Prod.mk.injEq, OfNat.ofNat_ne_zero, if_true, if_false,
       Nat.reduceEqDiff, OfNat.zero_ne_ofNat, Nat.succ_ne_self, reduceIte] at h
     obtain ⟨rfl, rfl⟩ := h
     refine stepEffect_same _ _ _ ?_ ?_ ?_ ?_ ?_ <;>
       first
       | rfl
       | (dsimp only [incrPC]; split <;> rfl))

theorem classE_effect (op x : Nat) (s t : Chip8) (b : Bool)
    (h : classE op x s = some (t, b)) : StepEffect op s t b := by
  rw [classE] at h
  by_cases h1 : op &&& 0x00FF = 0x009E
  · rw [if_pos h1] at h
    by_cases hb : s.m_V x < CH8_NUM_KEYS
    · rw [if_pos hb] at h
      simp only [brk, Option.some.injEq, Prod.mk.injEq] at h
      obtain ⟨rfl, rfl⟩ := h
      refine stepEffect_same _ _ _ ?_ ?_ ?_ ?_ ?_ <;>
        (dsimp only [incrPC]; split <;> rfl)
    · rw [if_neg hb] at h
      cases h
  · rw [if_neg h1] at h
    by_cases h2 : op &&& 0x00FF = 0x00A1
    · rw [if_pos h2] at h
      by_cases hb : s.m_V x < CH8_NUM_KEYS
      · rw [if_pos hb] at h
        simp only [brk, Option.some.injEq, Prod.mk.injEq] at h
        obtain ⟨rfl, rfl⟩ := h
        refine stepEffect_same _ _ _ ?_ ?_ ?_ ?_ ?_ <;>
          (dsimp only [incrPC]; split <;> rfl)
      · rw [if_neg hb] at h
        cases h
    · rw [if_neg h2] at h
      simp only [brk, Option.some.injEq, Prod.mk.injEq] at h
      obtain ⟨rfl, rfl⟩ := h
      exact stepEffect_same _ _ _ rfl rfl rfl rfl rfl

theorem classF_effect (op x : Nat) (s t : Chip8) (b : Bool)
    (hk : op / 4096 % 16 = 15) (h : classF op x s = some (t, b)) :
    StepEffect op s t b := by
  rw [classF] at h
  simp only [and_00FF] at h
  by_cases c1 : op % 256 = 0x07
  · rw [if_pos c1] at h
    simp only [brk, Option.some.injEq, Prod.mk.injEq] at h
    obtain ⟨rfl, rfl⟩ := h
    exact stepEffect_same _ _ _ rfl rfl rfl rfl rfl
  rw [if_neg c1] at h
  by_cases c2 : op % 256 = 0x0A
  · rw [if_pos c2] at h
    obtain ⟨k1, k2, k3⟩ := keyScan_spec x 0xF 0 s
    by_cases hr : (keyScan x 0 0xF (s, false)).2 = false
    · have hn : (!(keyScan x 0 0xF (s, false)).2) = true := by rw [hr]; rfl
      rw [if_pos hn] at h
      simp only [Option.some.injEq, Prod.mk.injEq] at h
      obtain ⟨rfl, rfl⟩ := h
      obtain ⟨e, hkeys⟩ := k3 hr
      rw [e]
      refine ⟨fun hb => absurd hb (by decide),
        fun _ => ⟨rfl, hk, c2, fun i hi => hkeys i (Nat.zero_le _) (by omega)⟩,
        fun _ => rfl, fun _ _ => rfl, fun hs => hs, fun _ _ => rfl⟩
    · have hn : ¬ ((!(keyScan x 0 0xF (s, false)).2) = true) := by
        simpa using hr
      rw [if_neg hn] at h
      simp only [brk, Option.some.injEq, Prod.mk.injEq] at h
      obtain ⟨rfl, rfl⟩ := h
      exact stepEffect_same _ _ _ k1.1 k1.2.1 k2 k1.2.2.1 k1.2.2.2.1
  rw [if_neg c2] at h
  by_cases c3 : op % 256 = 0x15
  · rw [if_pos c3] at h
    simp only [brk, Option.some.injEq, Prod.mk.injEq] at h
    obtain ⟨rfl, rfl⟩ := h
    exact ⟨fun _ => ⟨fun hne => absurd ⟨hk, c3⟩ hne, fun _ => rfl⟩,
      fun hb => absurd hb (by decide), fun _ => rfl, fun _ _ => rfl, fun hs => hs,
      fun _ _ => rfl⟩
  rw [if_neg c3] at h
  by_cases c4 : op % 256 = 0x18
  · rw [if_pos c4] at h
    simp only [brk, Option.some.injEq, Prod.mk.injEq] at h
    obtain ⟨rfl, rfl⟩ := h
    exact ⟨fun _ => ⟨fun _ => rfl, fun hne => absurd ⟨hk, c4⟩ hne⟩,
      fun hb => absurd hb (by decide), fun _ => rfl, fun _ _ => rfl, fun hs => hs,
      fun _ _ => rfl⟩
  rw [if_neg c4] at h
  by_cases c5 : op % 256 = 0x1E
  · rw [if_pos c5] at h
    simp only [brk, Option.some.injEq, Prod.mk.injEq] at h
    obtain ⟨rfl, rfl⟩ := h
    refine stepEffect_same _ _ _ ?_ ?_ ?_ ?_ ?_ <;>
      (dsimp only [incrPC]; split <;> rfl)
  rw [if_neg c5] at h
  by_cases c6 : op % 256 = 0x29
  · rw [if_pos c6] at h
    simp only [brk, Option.some.injEq, Prod.mk.injEq] at h
    obtain ⟨rfl, rfl⟩ := h
    exact stepEffect_same _ _ _ rfl rfl rfl rfl rfl
  rw [if_neg c6] at h
  by_cases c7 : op % 256 = 0x33
  · rw [if_pos c7] at h
    by_cases hI : s.m_I + 2 < CH8_MEM_SIZE
    · rw [if_pos hI] at h
      simp only [brk, Option.some.injEq, Prod.mk.injEq] at h
      obtain ⟨rfl, rfl⟩ := h
      refine ⟨fun _ => ⟨fun _ => rfl, fun _ => rfl⟩, fun hb => absurd hb (by decide),
        fun hne => absurd ⟨hk, Or.inl c7⟩ hne, fun a ha => ?_, fun hs => hs, fun _ _ => rfl⟩
      show arrSet (arrSet (arrSet s.m_memory s.m_I _) (s.m_I + 1) _) (s.m_I + 2) _ a = _
      rw [arrSet_other _ _ _ _ (by omega), arrSet_other _ _ _ _ (by omega),
        arrSet_other _ _ _ _ (by omega)]
    · rw [if_neg hI] at h
      cases h
  rw [if_neg c7] at h
  by_cases c8 : op % 256 = 0x55
  · rw [if_pos c8] at h
    obtain ⟨u, hu, hb⟩ := Option.bind_eq_some.mp h
    simp only [brk, Option.some.injEq, Prod.mk.injEq] at hb
    obtain ⟨rfl, rfl⟩ := hb
    obtain ⟨k1, k2⟩ := regDump_core _ _ _ hu
    exact ⟨fun _ => ⟨fun _ => k1.1, fun _ => k1.2.1⟩, fun hb => absurd hb (by decide),
      fun hne => absurd ⟨hk, Or.inr c8⟩ hne, k2,
      fun hs => (by show u.m_sp ≤ _; rw [k1.2.2.1]; exact hs),
      fun i _ => (by show u.m_stack i = _; rw [k1.2.2.2.1])⟩
  rw [if_neg c8] at h
  by_cases c9 : op % 256 = 0x65
  · rw [if_pos c9] at h
    obtain ⟨u, hu, hb⟩ := Option.bind_eq_some.mp h
    simp only [brk, Option.some.injEq, Prod.mk.injEq] at hb
    obtain ⟨rfl, rfl⟩ := hb
    obtain ⟨k1, k2⟩ := regLoad_core _ _ _ hu
    exact stepEffect_same _ _ _ k1.1 k1.2.1 k2 k1.2.2.1 k1.2.2.2.1
  rw [if_neg c9] at h
  simp only [brk, Option.some.injEq, Prod.mk.injEq] at h
  obtain ⟨rfl, rfl⟩ := h
  exact stepEffect_same _ _ _ rfl rfl rfl rfl rfl

theorem draw_effect (op x y : Nat) (s t : Chip8) (h : draw op x y s = some t) :
    StepEffect op s t true := by
  unfold draw at h
  obtain ⟨u, hu, rfl⟩ := Option.map_eq_some'.mp h
  obtain ⟨k1, k2⟩ := drawLoop_core _ _ _ _ _ hu
  exact stepEffect_same _ _ _ k1.1 k1.2.1 k2 k1.2.2.1 k1.2.2.2.1

/-- Every path through the decode switch has the effect described by
`StepEffect`. -/
theorem decode_effect (rnd op x y : Nat) (s t : Chip8) (b : Bool)
    (h : decode rnd op x y s = some (t, b)) : StepEffect op s t b := by
  have h16 : op / 4096 % 16 < 16 := Nat.mod_lt _ (by norm_num)
  by_cases k0 : op / 4096 % 16 * 4096 = 0x0000
  · rw [decode_class0 _ _ _ _ _ k0] at h
    exact class0_effect _ _ _ _ h
  by_cases k8 : op / 4096 % 16 * 4096 = 0x8000
  · rw [decode_class8 _ _ _ _ _ k8] at h
    exact class8_effect _ _ _ _ _ _ h
  by_cases kE : op / 4096 % 16 * 4096 = 0xE000
  · rw [decode_classE _ _ _ _ _ kE] at h
    exact classE_effect _ _ _ _ _ h
  by_cases kF : op / 4096 % 16 * 4096 = 0xF000
  · rw [decode_classF _ _ _ _ _ kF] at h
    exact classF_effect _ _ _ _ _ (by omega) h
  by_cases kD : op / 4096 % 16 * 4096 = 0xD000
  · have hd : decode rnd op x y s = (draw op x y s).bind brk := by
      simp [decode, and_F000, kD]
    rw [hd] at h
    obtain ⟨u, hu, hb⟩ := Option.bind_eq_some.mp h
    simp only [brk, Option.some.injEq, Prod.mk.injEq] at hb
    obtain ⟨rfl, rfl⟩ := hb
    exact draw_effect _ _ _ _ _ hu
  by_cases k2 : op / 4096 % 16 * 4096 = 0x2000
  · have hd : decode rnd op x y s =
        if s.m_sp < CH8_STACK_SIZE then
          brk { s with m_stack := arrSet s.m_stack s.m_sp s.m_pc, m_sp := s.m_sp + 1,
                       m_pc := op % 4096 }
        else none := by
      simp [decode, and_F000, and_0FFF, k2]
    rw [hd] at h
    by_cases hsp : s.m_sp < CH8_STACK_SIZE
    · rw [if_pos hsp] at h
      simp only [brk, Option.some.injEq, Prod.mk.injEq] at h
      obtain ⟨rfl, rfl⟩ := h
      refine ⟨fun _ => ⟨fun _ => rfl, fun _ => rfl⟩, fun hb => absurd hb (by decide),
        fun _ => rfl, fun _ _ => rfl, fun _ => hsp, fun i hi => ?_⟩
      show arrSet s.m_stack s.m_sp s.m_pc i = s.m_stack i
      rw [arrSet_other _ _ _ _ (by omega)]
    · rw [if_neg hsp] at h
      cases h
  -- the remaining classes write neither a timer, nor memory, nor the stack
  rw [decode] at h
  simp only [and_F000, k0, k2, k8, kD, kE, kF, if_false] at h
  have hcl : op / 4096 % 16 = 1 ∨ op / 4096 % 16 = 3 ∨ op / 4096 % 16 = 4 ∨
      op / 4096 % 16 = 5 ∨ op / 4096 % 16 = 6 ∨ op / 4096 % 16 = 7 ∨
      op / 4096 % 16 = 9 ∨ op / 4096 % 16 = 10 ∨ op / 4096 % 16 = 11 ∨
      op / 4096 % 16 = 12 := by omega
  rcases hcl with c | c | c | c | c | c | c | c | c | c <;>
    (simp only [c, brk, Option.some.injEq, Prod.mk.injEq, Nat.reduceMul, Nat.reduceEqDiff,
       if_true, if_false, reduceIte] at h
     obtain ⟨rfl, rfl⟩ := h
     refine stepEffect_same _ _ _ ?_ ?_ ?_ ?_ ?_ <;>
       first
       | rfl
       | (dsimp only [incrPC]; split <;> rfl))

/-- A returning cycle is a path through the decode switch, followed by the
timer update unless the switch was left by `return`. -/
theorem emulateCycle_effect (rnd : Nat) (s t : Chip8) (h : emulateCycle rnd s = some t) :
    s.m_pc + 1 < CH8_MEM_SIZE ∧
    ∃ u b, t = (if b = true then updateTimers u else u) ∧
      StepEffect (fetch s) { s with m_drawFlag := false } u b := by
  have hpc : s.m_pc + 1 < CH8_MEM_SIZE := by
    by_contra hn
    unfold emulateCycle at h
    simp only [hn, if_false] at h
    cases h
  refine ⟨hpc, ?_⟩
  rw [emulateCycle_eq rnd s hpc] at h
  obtain ⟨⟨u, b⟩, hd, ht⟩ := Option.map_eq_some'.mp h
  exact ⟨u, b, ht.symm, decode_effect _ _ _ _ _ _ _ hd⟩

theorem keyScan_none (x : Nat) (k : Nat) :
    ∀ (i : Nat) (s : Chip8), (∀ j, i ≤ j → j < i + k → s.m_keys j = false) →
      keyScan x i k (s, false) = (s, false) := by
  induction k with
  | zero => intro i s _; rfl
  | succ k ih =>
    intro i s hkeys
    rw [keyScan]
    have h0 : ¬ (s.m_keys i = true) := by
      rw [hkeys i (Nat.le_refl _) (by omega)]; decide
    rw [if_neg h0]
    exact ih (i + 1) s (fun j h1 h2 => hkeys j (by omega) (by omega))

/-- One cycle on `FX0A` with none of the keys `0..14` down returns the state
with only the draw flag reset: the timer update is not reached. -/
theorem emulateCycle_wait (rnd : Nat) (s : Chip8) (hpc : s.m_pc + 1 < CH8_MEM_SIZE)
    (hk : fetch s / 0x1000 = 0xF) (hn : fetch s % 0x100 = 0x0A)
    (hkeys : ∀ i, i < 0xF → s.m_keys i = false) :
    emulateCycle rnd s = some { s with m_drawFlag := false } := by
  have hlt := fetch_lt s
  have hs : keyScan (fetch s / 256 % 16) 0 0xF ({ s with m_drawFlag := false }, false)
      = ({ s with m_drawFlag := false }, false) :=
    keyScan_none _ 0xF 0 _ (fun j _ hj => hkeys j (by omega))
  rw [emulateCycle_eq rnd s hpc, decode_classF _ _ _ _ _ (by omega)]
  simp only [classF, and_00FF, hn, hs]
  rfl

/-! ## A draw as a list of pixel flips -/

theorem flipAll_nil (g : Nat → Nat → Nat) : flipAll [] g = g := rfl

theorem flipAll_cons (p : Nat × Nat) (ps : List (Nat × Nat)) (g : Nat → Nat → Nat) :
    flipAll (p :: ps) g = flipAll ps (flipAt g p) := rfl

theorem flipAll_append (a b : List (Nat × Nat)) (g : Nat → Nat → Nat) :
    flipAll (a ++ b) g = flipAll b (flipAll a g) := by
  unfold flipAll
  rw [List.foldl_append]

theorem collides_append (a : List (Nat × Nat)) :
    ∀ (b : List (Nat × Nat)) (g : Nat → Nat → Nat),
      collides g (a ++ b) = (collides g a || collides (flipAll a g) b) := by
  induction a with
  | nil => intro b g; simp [collides, flipAll_nil]
  | cons p ps ih =>
    intro b g
    rw [List.cons_append, collides, collides, ih, flipAll_cons, Bool.or_assoc]

/-- The pixels of `ps` collide on `g` exactly when the `k`-th pixel, for some
`k`, holds 1 on the display obtained by flipping the first `k` pixels. -/
theorem collides_iff (ps : List (Nat × Nat)) :
    ∀ (g : Nat → Nat → Nat),
      collides g ps = true ↔
        ∃ k p, ps[k]? = some p ∧ flipAll (ps.take k) g p.1 p.2 = 1 := by
  induction ps with
  | nil =>
    intro g
    simp [collides]
  | cons q qs ih =>
    intro g
    rw [collides, Bool.or_eq_true, ih]
    constructor
    · rintro (h | ⟨k, p, hk, hp⟩)
      · exact ⟨0, q, by simp, by simpa [flipAll_nil] using h⟩
      · exact ⟨k + 1, p, by simpa using hk, by simpa [flipAll_cons] using hp⟩
    · rintro ⟨k, p, hk, hp⟩
      cases k with
      | zero =>
        left
        simp only [List.getElem?_cons_zero, Option.some.injEq] at hk
        subst hk
        simpa [flipAll_nil] using hp
      | succ k =>
        right
        exact ⟨k, p, by simpa using hk, by simpa [flipAll_cons] using hp⟩

theorem catPixels_nil (pix : Nat → List (Nat × Nat)) (k : Nat) :
    ∀ lo, (∀ i, lo ≤ i → i < lo + k → pix i = []) → catPixels pix lo k = [] := by
  induction k with
  | zero => intro lo _; rfl
  | succ k ih =>
    intro lo h
    rw [catPixels, h lo (Nat.le_refl _) (by omega),
      ih (lo + 1) (fun i h1 h2 => h i (by omega) (by omega))]
    rfl

/-- A counted loop flips the concatenation of what its iterations flip. -/
theorem forCountM_flips (R : Chip8 → Prop) (body : Nat → Chip8 → Option Chip8)
    (pix : Nat → List (Nat × Nat)) (k : Nat) :
    ∀ lo, (∀ i, lo ≤ i → i < lo + k → Flips R (body i) (pix i)) →
      Flips R (forCountM body lo k) (catPixels pix lo k) := by
  induction k with
  | zero =>
    intro lo _ u u' hR h
    rw [forCountM] at h
    cases h
    exact ⟨hR, rfl, by simp [catPixels, collides]⟩
  | succ k ih =>
    intro lo hbody u u' hR h
    rw [forCountM] at h
    obtain ⟨u1, h1, h2⟩ := Option.bind_eq_some.mp h
    obtain ⟨hR1, hg1, hv1⟩ := hbody lo (Nat.le_refl _) (by omega) u u1 hR h1
    obtain ⟨hR2, hg2, hv2⟩ :=
      ih (lo + 1) (fun i a b => hbody i (by omega) (by omega)) u1 u' hR1 h2
    refine ⟨hR2, ?_, ?_⟩
    · rw [catPixels, flipAll_append, hg2, hg1]
    · rw [catPixels, collides_append, hv2, hv1, hg1]
      cases collides u.m_gfx (pix lo) <;>
        cases collides (flipAll (pix lo) u.m_gfx) (catPixels pix (lo + 1) k) <;> simp

theorem drawCol_flips (s : Chip8) (x y n row col : Nat) (hxF : x ≠ 0xF)
    (hyF : ∀ r, r < n → y + r ≠ 0xF) (hrow : row < n) :
    Flips (SameDrawInputs x y n s)
      (drawCol x y row (s.m_memory (s.m_I + row)) col) (pixelAt s x y row col) := by
  intro u u' hR h
  have ex : u.m_V x = s.m_V x := hR.1.symm
  have ey : u.m_V (y + row) = s.m_V (y + row) := (hR.2.1 row hrow).symm
  have ew : u.m_wrapFlag = s.m_wrapFlag := hR.2.2.2.2.symm
  by_cases hbit : (s.m_memory (s.m_I + row) &&& (0x80 >>> col)) % 256 ≠ 0
  · by_cases hskip : s.m_V x + col > CH8_WIDTH ∧ s.m_wrapFlag = false
    · have hp : pixelAt s x y row col = [] := by
        unfold pixelAt
        rw [if_neg (fun hc => hc.2 hskip)]
      have hu : drawCol x y row (s.m_memory (s.m_I + row)) col u = some u := by
        unfold drawCol
        dsimp only
        rw [if_pos hbit, if_pos (by rw [ex, ew]; exact hskip)]
      rw [hu] at h
      cases h
      rw [hp]
      exact ⟨hR, rfl, by simp [collides]⟩
    · have hp : pixelAt s x y row col = [(s.m_V x + col, s.m_V (y + row))] := by
        unfold pixelAt
        rw [if_pos ⟨hbit, hskip⟩]
      have hskip' : ¬ (u.m_V x + col > CH8_WIDTH ∧ u.m_wrapFlag = false) := by
        rw [ex, ew]; exact hskip
      by_cases hin : x < CH8_NUM_REGS ∧ y + row < CH8_NUM_REGS
          ∧ u.m_V x + col < CH8_WIDTH ∧ u.m_V (y + row) < CH8_HEIGHT
      · rw [drawCol_flip x y row _ col u hxF (hyF row hrow) hbit hskip' hin] at h
        cases h
        rw [hp]
        refine ⟨?_, ?_, ?_⟩
        · refine ⟨?_, ?_, hR.2.2.1, hR.2.2.2.1, hR.2.2.2.2⟩
          · dsimp only
            split
            · rw [arrSet_other _ _ _ _ hxF]; exact hR.1
            · exact hR.1
          · intro r hr
            dsimp only
            split
            · rw [arrSet_other _ _ _ _ (hyF r hr)]; exact hR.2.1 r hr
            · exact hR.2.1 r hr
        · dsimp only
          rw [ex, ey]
          rfl
        · dsimp only
          rw [ex, ey]
          by_cases hc : u.m_gfx (s.m_V x + col) (s.m_V (y + row)) = 1
          · simp [collides, hc]
          · simp [collides, hc]
      · exfalso
        unfold drawCol at h
        dsimp only at h
        rw [if_pos hbit, if_neg hskip', if_neg hin] at h
        cases h
  · have hp : pixelAt s x y row col = [] := by
      unfold pixelAt
      rw [if_neg (fun hc => hbit hc.1)]
    have hu : drawCol x y row (s.m_memory (s.m_I + row)) col u = some u := by
      unfold drawCol
      dsimp only
      rw [if_neg hbit]
    rw [hu] at h
    cases h
    rw [hp]
    exact ⟨hR, rfl, by simp [collides]⟩

theorem drawRow_flips (s : Chip8) (x y n row : Nat) (hxF : x ≠ 0xF)
    (hyF : ∀ r, r < n → y + r ≠ 0xF) (hrow : row < n) :
    Flips (SameDrawInputs x y n s) (drawRow x y row)
      (catPixels (pixelAt s x y row) 0 8) := by
  intro u u' hR h
  unfold drawRow at h
  by_cases hI : u.m_I + row < CH8_MEM_SIZE
  · rw [if_pos hI] at h
    dsimp only at h
    have eb : u.m_memory (u.m_I + row) = s.m_memory (s.m_I + row) :=
      (hR.2.2.2.1 row hrow).symm
    rw [eb] at h
    exact forCountM_flips (SameDrawInputs x y n s)
      (drawCol x y row (s.m_memory (s.m_I + row))) (pixelAt s x y row) (8 - 0) 0
      (fun i _ _ => drawCol_flips s x y n row i hxF hyF hrow) u u' hR h
  · rw [if_neg hI] at h
    cases h

theorem drawLoop_flips (s : Chip8) (x y n : Nat) (hxF : x ≠ 0xF)
    (hyF : ∀ r, r < n → y + r ≠ 0xF) :
    Flips (SameDrawInputs x y n s) (forLoopM 0 n (drawRow x y)) (drawnPixels s x y n) :=
  forCountM_flips (SameDrawInputs x y n s) (drawRow x y)
    (fun row => catPixels (pixelAt s x y row) 0 8) (n - 0) 0
    (fun i _ hi => drawRow_flips s x y n i hxF hyF (by omega))

end Chip8

namespace Chip8

/-! ## The claims -/

/-- C1. `8XY4` with `x ≠ 0xF`: after one cycle `Vx` is the 8-bit sum of the
old `Vx` and `Vy`, `VF` is 1 exactly when that sum exceeded 255, and the
program counter moved on by 2 (also for `y = 0xF` and `y = x`). -/
theorem add_8XY4 (rnd : Nat) (s : Chip8) (x y : Nat) (hx : x < 16) (hy : y < 16)
    (hxF : x ≠ 0xF) (hpc : s.m_pc + 1 < CH8_MEM_SIZE)
    (hop : fetch s = 0x8004 + 0x100 * x + 0x10 * y)
    (hVx : s.m_V x < 256) (hVy : s.m_V y < 256) :
    ∃ t, emulateCycle rnd s = some t ∧
      t.m_V x = (s.m_V x + s.m_V y) % 256 ∧
      t.m_V 0xF = (if s.m_V x + s.m_V y > 255 then 1 else 0) ∧
      t.m_pc = s.m_pc + 2 := by
  have hX : fetch s / 256 % 16 = x := by omega
  have hY : fetch s / 16 % 16 = y := by omega
  have hK : fetch s / 4096 % 16 * 4096 = 0x8000 := by omega
  have hN : fetch s % 16 = 4 := by omega
  have hpc2 : (s.m_pc + 2) % 65536 = s.m_pc + 2 := by
    unfold CH8_MEM_SIZE at hpc; omega
  have hF : (15 : Nat) ≠ x := fun h => hxF h.symm
  rw [emulateCycle_eq rnd s hpc, hX, hY]
  by_cases h : s.m_V x + s.m_V y > 255
  · have hc : (s.m_V x + s.m_V y) % 256 < s.m_V x ∨
        (s.m_V x + s.m_V y) % 256 < s.m_V y := by omega
    simp [decode, class8, and_F000, and_000F, hK, hN, brk, h, hc, hpc2,
      arrSet_other _ _ _ _ hF]
  · have hc : ¬ ((s.m_V x + s.m_V y) % 256 < s.m_V x ∨
        (s.m_V x + s.m_V y) % 256 < s.m_V y) := by omega
    simp [decode, class8, and_F000, and_000F, hK, hN, brk, h, hc, hpc2,
      arrSet_other _ _ _ _ hF]

/-- Witness of C1 at `8124` with `V1 = 200`, `V2 = 100`. -/
theorem add_8XY4_witness :
    ∃ t, emulateCycle 0 stAdd = some t ∧
      t.m_V 1 = (stAdd.m_V 1 + stAdd.m_V 2) % 256 ∧
      t.m_V 0xF = (if stAdd.m_V 1 + stAdd.m_V 2 > 255 then 1 else 0) ∧
      t.m_pc = stAdd.m_pc + 2 :=
  add_8XY4 0 stAdd 1 2 (by decide) (by decide) (by decide) (by decide) (by decide)
    (by decide) (by decide)

/-- C2. `8XY5` and `8XY7` with `x ≠ 0xF`: `Vx` becomes the 8-bit difference
(`Vx - Vy`, respectively `Vy - Vx`) and `VF` is 0 when the subtraction
borrowed and 1 otherwise; equal operands give 0 with `VF = 1`. -/
theorem sub_8XY5_8XY7 (rnd : Nat) (s : Chip8) (x y : Nat) (hx : x < 16) (hy : y < 16)
    (hxF : x ≠ 0xF) (hpc : s.m_pc + 1 < CH8_MEM_SIZE)
    (hVx : s.m_V x < 256) (hVy : s.m_V y < 256) :
    (fetch s = 0x8005 + 0x100 * x + 0x10 * y →
      ∃ t, emulateCycle rnd s = some t ∧
        (t.m_V x : Int) = ((s.m_V x : Int) - (s.m_V y : Int)) % 256 ∧
        t.m_V 0xF = (if s.m_V x < s.m_V y then 0 else 1) ∧
        (s.m_V x = s.m_V y → t.m_V x = 0 ∧ t.m_V 0xF = 1)) ∧
    (fetch s = 0x8007 + 0x100 * x + 0x10 * y →
      ∃ t, emulateCycle rnd s = some t ∧
        (t.m_V x : Int) = ((s.m_V y : Int) - (s.m_V x : Int)) % 256 ∧
        t.m_V 0xF = (if s.m_V y < s.m_V x then 0 else 1) ∧
        (s.m_V x = s.m_V y → t.m_V x = 0 ∧ t.m_V 0xF = 1)) := by
  have hF : (15 : Nat) ≠ x := fun h => hxF h.symm
  constructor
  · intro hop
    have hX : fetch s / 256 % 16 = x := by omega
    have hY : fetch s / 16 % 16 = y := by omega
    have hK : fetch s / 4096 % 16 * 4096 = 0x8000 := by omega
    have hN : fetch s % 16 = 5 := by omega
    rw [emulateCycle_eq rnd s hpc, hX, hY]
    by_cases h : s.m_V x < s.m_V y
    · have hc : (s.m_V x + 256 - s.m_V y) % 256 > s.m_V x := by omega
      simp only [decode, class8, and_F000, and_000F, hK, hN, brk, h, hc]
      norm_num
      refine ⟨?_, ?_, ?_⟩
      · omega
      · rw [arrSet_other _ _ _ _ hF]; simp
      · intro he; omega
    · have hc : ¬ ((s.m_V x + 256 - s.m_V y) % 256 > s.m_V x) := by omega
      simp only [decode, class8, and_F000, and_000F, hK, hN, brk, h, hc]
      norm_num
      refine ⟨?_, ?_, ?_⟩
      · omega
      · rw [arrSet_other _ _ _ _ hF]; simp
      · intro he
        refine ⟨?_, ?_⟩
        · omega
        · rw [arrSet_other _ _ _ _ hF]; simp
  · intro hop
    have hX : fetch s / 256 % 16 = x := by omega
    have hY : fetch s / 16 % 16 = y := by omega
    have hK : fetch s / 4096 % 16 * 4096 = 0x8000 := by omega
    have hN : fetch s % 16 = 7 := by omega
    rw [emulateCycle_eq rnd s hpc, hX, hY]
    by_cases h : s.m_V y < s.m_V x
    · have hc : (s.m_V y + 256 - s.m_V x) % 256 > s.m_V y := by omega
      simp only [decode, class8, and_F000, and_000F, hK, hN, brk, h, hc]
      norm_num
      refine ⟨?_, ?_, ?_⟩
      · omega
      · rw [arrSet_other _ _ _ _ hF]; simp
      · intro he; omega
    · have hc : ¬ ((s.m_V y + 256 - s.m_V x) % 256 > s.m_V y) := by omega
      simp only [decode, class8, and_F000, and_000F, hK, hN, brk, h, hc]
      norm_num
      refine ⟨?_, ?_, ?_⟩
      · omega
      · rw [arrSet_other _ _ _ _ hF]; simp
      · intro he
        refine ⟨?_, ?_⟩
        · omega
        · rw [arrSet_other _ _ _ _ hF]; simp

/-- Witness of C2: `8125` and `8127` with `V1 = 3`, `V2 = 5`. -/
theorem sub_8XY5_8XY7_witness :
    (∃ t, emulateCycle 0 stSub = some t ∧
        (t.m_V 1 : Int) = ((stSub.m_V 1 : Int) - (stSub.m_V 2 : Int)) % 256 ∧
        t.m_V 0xF = (if stSub.m_V 1 < stSub.m_V 2 then 0 else 1) ∧
        (stSub.m_V 1 = stSub.m_V 2 → t.m_V 1 = 0 ∧ t.m_V 0xF = 1)) ∧
    (∃ t, emulateCycle 0 stSubN = some t ∧
        (t.m_V 1 : Int) = ((stSubN.m_V 2 : Int) - (stSubN.m_V 1 : Int)) % 256 ∧
        t.m_V 0xF = (if stSubN.m_V 2 < stSubN.m_V 1 then 0 else 1) ∧
        (stSubN.m_V 1 = stSubN.m_V 2 → t.m_V 1 = 0 ∧ t.m_V 0xF = 1)) :=
  ⟨(sub_8XY5_8XY7 0 stSub 1 2 (by decide) (by decide) (by decide) (by decide)
      (by decide) (by decide)).1 (by decide),
   (sub_8XY5_8XY7 0 stSubN 1 2 (by decide) (by decide) (by decide) (by decide)
      (by decide) (by decide)).2 (by decide)⟩

/-- C3. `8XY6` and `8XYE` with `x ≠ 0xF`: the right shift leaves
`VF = Vx mod 2` and `Vx = Vx / 2`, the left shift leaves `VF = Vx / 128`
(the top bit of a byte) and `Vx = 2 * Vx mod 256`; every register other than
`Vx` and `VF` (so `Vy` when `y ≠ x`, `y ≠ 0xF`) keeps its value and the
program counter moves on by 2. -/
theorem shift_8XY6_8XYE (rnd : Nat) (s : Chip8) (x y : Nat) (hx : x < 16) (hy : y < 16)
    (hxF : x ≠ 0xF) (hpc : s.m_pc + 1 < CH8_MEM_SIZE) :
    (fetch s = 0x8006 + 0x100 * x + 0x10 * y →
      ∃ t, emulateCycle rnd s = some t ∧
        t.m_V 0xF = s.m_V x % 2 ∧ t.m_V x = s.m_V x / 2 ∧
        (y ≠ x → y ≠ 0xF → t.m_V y = s.m_V y) ∧
        (∀ j, j ≠ x → j ≠ 0xF → t.m_V j = s.m_V j) ∧
        t.m_pc = s.m_pc + 2) ∧
    (fetch s = 0x800E + 0x100 * x + 0x10 * y →
      ∃ t, emulateCycle rnd s = some t ∧
        t.m_V 0xF = s.m_V x / 128 ∧ t.m_V x = (2 * s.m_V x) % 256 ∧
        (y ≠ x → y ≠ 0xF → t.m_V y = s.m_V y) ∧
        (∀ j, j ≠ x → j ≠ 0xF → t.m_V j = s.m_V j) ∧
        t.m_pc = s.m_pc + 2) := by
  have hF : (15 : Nat) ≠ x := fun h => hxF h.symm
  constructor
  · intro hop
    have hX : fetch s / 256 % 16 = x := by omega
    have hY : fetch s / 16 % 16 = y := by omega
    have hK : fetch s / 4096 % 16 * 4096 = 0x8000 := by omega
    have hN : fetch s % 16 = 6 := by omega
    rw [emulateCycle_eq rnd s hpc, hX, hY]
    simp only [decode, class8, and_F000, and_000F, hK, hN, brk]
    norm_num
    have hother : ∀ j, j ≠ x → j ≠ 15 →
        arrSet (arrSet s.m_V 15 (s.m_V x % 2)) x (arrSet s.m_V 15 (s.m_V x % 2) x >>> 1) j
          = s.m_V j := by
      intro j h1 h2
      rw [arrSet_other _ _ _ _ h1, arrSet_other _ _ _ _ h2]
    refine ⟨?_, ?_, ?_, hother, ?_⟩
    · rw [arrSet_other _ _ _ _ hF]; simp
    · rw [arrSet_other _ _ _ _ hxF, Nat.shiftRight_eq_div_pow]
    · exact hother y
    · unfold CH8_MEM_SIZE at hpc; omega
  · intro hop
    have hX : fetch s / 256 % 16 = x := by omega
    have hY : fetch s / 16 % 16 = y := by omega
    have hK : fetch s / 4096 % 16 * 4096 = 0x8000 := by omega
    have hN : fetch s % 16 = 14 := by omega
    rw [emulateCycle_eq rnd s hpc, hX, hY]
    simp only [decode, class8, and_F000, and_000F, hK, hN, brk]
    norm_num
    have hother : ∀ j, j ≠ x → j ≠ 15 →
        arrSet (arrSet s.m_V 15 (s.m_V x >>> 7)) x
          ((arrSet s.m_V 15 (s.m_V x >>> 7) x <<< 1) % 256) j = s.m_V j := by
      intro j h1 h2
      rw [arrSet_other _ _ _ _ h1, arrSet_other _ _ _ _ h2]
    refine ⟨?_, ?_, ?_, hother, ?_⟩
    · rw [arrSet_other _ _ _ _ hF, arrSet_same, Nat.shiftRight_eq_div_pow]
    · rw [arrSet_other _ _ _ _ hxF, Nat.shiftLeft_eq]; norm_num; omega
    · exact hother y
    · unfold CH8_MEM_SIZE at hpc; omega

/-- Witness of C3: `8126` and `812E` with `V1 = 0x81`. -/
theorem shift_8XY6_8XYE_witness :
    (∃ t, emulateCycle 0 stShr = some t ∧
        t.m_V 0xF = stShr.m_V 1 % 2 ∧ t.m_V 1 = stShr.m_V 1 / 2 ∧
        (2 ≠ 1 → 2 ≠ 0xF → t.m_V 2 = stShr.m_V 2) ∧
        (∀ j, j ≠ 1 → j ≠ 0xF → t.m_V j = stShr.m_V j) ∧
        t.m_pc = stShr.m_pc + 2) ∧
    (∃ t, emulateCycle 0 stShl = some t ∧
        t.m_V 0xF = stShl.m_V 1 / 128 ∧ t.m_V 1 = (2 * stShl.m_V 1) % 256 ∧
        (2 ≠ 1 → 2 ≠ 0xF → t.m_V 2 = stShl.m_V 2) ∧
        (∀ j, j ≠ 1 → j ≠ 0xF → t.m_V j = stShl.m_V j) ∧
        t.m_pc = stShl.m_pc + 2) :=
  ⟨(shift_8XY6_8XYE 0 stShr 1 2 (by decide) (by decide) (by decide) (by decide)).1
      (by decide),
   (shift_8XY6_8XYE 0 stShl 1 2 (by decide) (by decide) (by decide) (by decide)).2
      (by decide)⟩

/-- C4 (what the code does). `D012` with `V0 = 0`, `V1 = 0`, `V2 = 5` and
sprite rows `0x80`, `0x80` lies wholly on the blank display; bit 7 of the
second sprite byte is set, yet after the cycle pixel `(V0, V1 + 1) = (0, 1)`
is still 0 while pixel `(0, 5) = (V0, V2)` has been flipped: row `r` is drawn
at `m_V[y + r]`, not at `m_V[y] + r`. -/
theorem draw_row_index_is_register :
    stDrawRows.m_V 0 + 7 < CH8_WIDTH ∧ stDrawRows.m_V 1 + 2 - 1 < CH8_HEIGHT ∧
    stDrawRows.m_I + 2 - 1 < CH8_MEM_SIZE ∧
    stDrawRows.m_memory (stDrawRows.m_I + 1) / 2 ^ 7 % 2 = 1 ∧
    stDrawRows.m_gfx 0 1 = 0 ∧ stDrawRows.m_gfx 0 5 = 0 ∧
    (emulateCycle 0 stDrawRows).map (fun t => (t.m_gfx 0 0, t.m_gfx 0 1, t.m_gfx 0 5))
      = some (1, 0, 1) := by
  decide

/-- C5 (what the code does). The draw clears `VF` before it reads the
coordinates, and reads `m_V[x]` again between the collision test and the flip,
so with `x = 0xF` the sprite is not drawn at `(VX, VY)` and the tested pixel is
not the flipped one. `DF01` twice, with `VF = 1` before each of the two draws,
the same instruction word, `I`, sprite byte, wrap flag and `V0`, all accesses
in bounds: the display after the second draw differs from the display before
the first at `(0, 0)` and `(1, 0)`. -/
theorem draw_twice_VF_coordinate :
    ∃ t1 t2, emulateCycle 0 stDrawVF = some t1 ∧ emulateCycle 0 t1 = some t2 ∧
      fetch t1 = fetch stDrawVF ∧ t1.m_I = stDrawVF.m_I ∧
      t1.m_memory t1.m_I = stDrawVF.m_memory stDrawVF.m_I ∧
      t1.m_wrapFlag = stDrawVF.m_wrapFlag ∧
      t1.m_V 0xF = stDrawVF.m_V 0xF ∧ t1.m_V 0 = stDrawVF.m_V 0 ∧
      t2.m_gfx 0 0 ≠ stDrawVF.m_gfx 0 0 ∧ t2.m_gfx 1 0 ≠ stDrawVF.m_gfx 1 0 := by
  have h1 : (emulateCycle 0 stDrawVF).isSome = true := by decide
  obtain ⟨t1, ht1⟩ := Option.isSome_iff_exists.mp h1
  have h2 : ((emulateCycle 0 stDrawVF).bind (emulateCycle 0)).isSome = true := by decide
  rw [ht1, Option.some_bind] at h2
  obtain ⟨t2, ht2⟩ := Option.isSome_iff_exists.mp h2
  have e1 : (emulateCycle 0 stDrawVF).map
      (fun t => (fetch t, t.m_I, t.m_memory t.m_I, t.m_wrapFlag, t.m_V 0xF, t.m_V 0))
      = some (fetch stDrawVF, stDrawVF.m_I, stDrawVF.m_memory stDrawVF.m_I,
          stDrawVF.m_wrapFlag, stDrawVF.m_V 0xF, stDrawVF.m_V 0) := by decide
  have e2 : ((emulateCycle 0 stDrawVF).bind (emulateCycle 0)).map
      (fun t => (t.m_gfx 0 0, t.m_gfx 1 0)) = some (1, 0) := by decide
  rw [ht1, Option.map_some'] at e1
  rw [ht1, Option.some_bind, ht2, Option.map_some'] at e2
  simp only [Option.some.injEq, Prod.mk.injEq] at e1 e2
  refine ⟨t1, t2, ht1, ht2, e1.1, e1.2.1, e1.2.2.1, e1.2.2.2.1, e1.2.2.2.2.1,
    e1.2.2.2.2.2, ?_, ?_⟩
  · rw [e2.1]; decide
  · rw [e2.2]; decide

/-- Drawing twice where `VF` is not read as a coordinate. A draw `DXYN` with
`x ≠ 0xF` and `y + r ≠ 0xF` for every row `r < N`, which makes only
in-bounds accesses and is followed directly by the same instruction word:
the two cycles both return, and the display after the second draw is the
display before the first. -/
theorem draw_twice_restores (r1 r2 : Nat) (s : Chip8) (x y n : Nat)
    (hx : x < 16) (hy : y < 16) (hn : n < 16)
    (hxF : x ≠ 0xF) (hyF : ∀ r, r < n → y + r ≠ 0xF)
    (hpc : s.m_pc + 3 < CH8_MEM_SIZE)
    (hop : fetch s = 0xD000 + 0x100 * x + 0x10 * y + n)
    (hnext : fetch { s with m_pc := s.m_pc + 2 } = fetch s)
    (hin : (emulateCycle r1 s).isSome = true) :
    ∃ t1 t2, emulateCycle r1 s = some t1 ∧ emulateCycle r2 t1 = some t2 ∧
      ∀ i j, t2.m_gfx i j = s.m_gfx i j := by
  have hmem : CH8_MEM_SIZE = 4096 := rfl
  have hpc2 : (s.m_pc + 2) % 65536 = s.m_pc + 2 := by omega
  have hc1 := emulateCycle_draw r1 s x y n hx hy hn (by omega) hop
  obtain ⟨t1, ht1⟩ := Option.isSome_iff_exists.mp hin
  rw [ht1] at hc1
  obtain ⟨t', hloop, ht1'⟩ := Option.map_eq_some'.mp hc1.symm
  -- the first draw as an XOR with a mask
  obtain ⟨M, hM⟩ := drawLoop_xorUniform x y n hxF hyF _ t' hloop
  obtain ⟨v, hv, hRv, hgv⟩ := hM _ (SameDrawInputs.refl x y n _)
  rw [hloop] at hv
  cases hv
  obtain ⟨fpc, fmem⟩ := drawLoop_frame x y n _ _ hloop
  have e_pc : t1.m_pc = s.m_pc + 2 := by
    rw [← ht1', updateTimers_pc, incrPC_pc]
    show (t'.m_pc + 2) % 65536 = _
    rw [fpc]; exact hpc2
  have e_mem : t1.m_memory = s.m_memory := by
    rw [← ht1', updateTimers_memory, incrPC_memory]
    exact fmem
  have e_V : t1.m_V = t'.m_V := by rw [← ht1', updateTimers_V, incrPC_V]
  have e_I : t1.m_I = t'.m_I := by rw [← ht1', updateTimers_I, incrPC_I]
  have e_w : t1.m_wrapFlag = t'.m_wrapFlag := by
    rw [← ht1', updateTimers_wrapFlag, incrPC_wrapFlag]
  have e_g : t1.m_gfx = t'.m_gfx := by rw [← ht1', updateTimers_gfx, incrPC_gfx]
  have hf : fetch t1 = 0xD000 + 0x100 * x + 0x10 * y + n := by
    rw [← hop, ← hnext]
    unfold fetch
    rw [e_pc, e_mem]
  -- the second draw starts in the class of the first
  have hc2 := emulateCycle_draw r2 t1 x y n hx hy hn (by omega) hf
  have hR2 : SameDrawInputs x y n
      { s with m_drawFlag := false, m_V := arrSet s.m_V 0xF 0 }
      { t1 with m_drawFlag := false, m_V := arrSet t1.m_V 0xF 0 } := by
    refine ⟨?_, ?_, ?_, ?_, ?_⟩
    · show arrSet s.m_V 0xF 0 x = arrSet t1.m_V 0xF 0 x
      rw [arrSet_other _ _ _ _ hxF, arrSet_other _ _ _ _ hxF, e_V]
      have := hRv.1
      rw [show ({ s with m_drawFlag := false, m_V := arrSet s.m_V 0xF 0 } : Chip8).m_V x
        = arrSet s.m_V 0xF 0 x from rfl, arrSet_other _ _ _ _ hxF] at this
      exact this
    · intro r hr
      show arrSet s.m_V 0xF 0 (y + r) = arrSet t1.m_V 0xF 0 (y + r)
      rw [arrSet_other _ _ _ _ (hyF r hr), arrSet_other _ _ _ _ (hyF r hr), e_V]
      have := hRv.2.1 r hr
      rw [show ({ s with m_drawFlag := false, m_V := arrSet s.m_V 0xF 0 } : Chip8).m_V (y + r)
        = arrSet s.m_V 0xF 0 (y + r) from rfl, arrSet_other _ _ _ _ (hyF r hr)] at this
      exact this
    · show s.m_I = t1.m_I
      rw [e_I]; exact hRv.2.2.1
    · intro r hr
      show s.m_memory (s.m_I + r) = t1.m_memory (t1.m_I + r)
      rw [e_I, e_mem]
      have : s.m_I = t'.m_I := hRv.2.2.1
      rw [this]
    · show s.m_wrapFlag = t1.m_wrapFlag
      rw [e_w]; exact hRv.2.2.2.2
  obtain ⟨u', hu', _, hgu⟩ := hM _ hR2
  rw [hu', Option.map_some'] at hc2
  refine ⟨t1, _, ht1, hc2, ?_⟩
  intro i j
  rw [updateTimers_gfx, incrPC_gfx]
  show u'.m_gfx i j = s.m_gfx i j
  rw [hgu i j]
  show t1.m_gfx i j ^^^ M i j = s.m_gfx i j
  rw [e_g, hgv i j]
  show (s.m_gfx i j ^^^ M i j) ^^^ M i j = s.m_gfx i j
  exact Nat.xor_cancel_right _ _

/-- Drawing twice at a concrete state: `D122` twice over a display with pixel
`(3, 4)` set. -/
theorem draw_twice_restores_witness :
    ∃ t1 t2, emulateCycle 0 stDrawTwice = some t1 ∧ emulateCycle 0 t1 = some t2 ∧
      ∀ i j, t2.m_gfx i j = stDrawTwice.m_gfx i j :=
  draw_twice_restores 0 0 stDrawTwice 1 2 2 (by decide) (by decide) (by decide)
    (by decide) (by decide) (by decide) (by decide) (by decide) (by decide)

/-- C6. A call `2NNN` at address `A` with the stack pointer below the stack
capacity, whose target `NNN` holds the return instruction `00EE`: the call
cycle followed by the return cycle leaves the program counter at `A + 2` and
the stack pointer at its value before the call. -/
theorem call_then_return (r1 r2 : Nat) (s : Chip8) (nnn : Nat) (hnnn : nnn < 0x1000)
    (hpc : s.m_pc + 1 < CH8_MEM_SIZE) (hop : fetch s = 0x2000 + nnn)
    (hsp : s.m_sp < CH8_STACK_SIZE)
    (htgt : nnn + 1 < CH8_MEM_SIZE)
    (hret0 : s.m_memory nnn = 0x00) (hret1 : s.m_memory (nnn + 1) = 0xEE) :
    ∃ t1 t2, emulateCycle r1 s = some t1 ∧ emulateCycle r2 t1 = some t2 ∧
      t1.m_pc = nnn ∧ t1.m_sp = s.m_sp + 1 ∧
      t2.m_pc = s.m_pc + 2 ∧ t2.m_sp = s.m_sp := by
  have hK : fetch s / 4096 % 16 * 4096 = 0x2000 := by omega
  have hA : fetch s % 4096 = nnn := by omega
  have hpc2 : (s.m_pc + 2) % 65536 = s.m_pc + 2 := by
    unfold CH8_MEM_SIZE at hpc; omega
  obtain ⟨t1, ht1⟩ : ∃ t1, t1 = updateTimers
      { s with
        m_drawFlag := false,
        m_stack := arrSet s.m_stack s.m_sp s.m_pc,
        m_sp := s.m_sp + 1,
        m_pc := nnn } := ⟨_, rfl⟩
  have h1 : emulateCycle r1 s = some t1 := by
    rw [emulateCycle_eq r1 s hpc, ht1]
    simp [decode, and_F000, and_0FFF, hK, hA, brk, hsp]
  have e_pc : t1.m_pc = nnn := by rw [ht1, updateTimers_pc]
  have e_sp : t1.m_sp = s.m_sp + 1 := by rw [ht1, updateTimers_sp]
  have e_mem : t1.m_memory = s.m_memory := by rw [ht1, updateTimers_memory]
  have e_stack : t1.m_stack = arrSet s.m_stack s.m_sp s.m_pc := by
    rw [ht1, updateTimers_stack]
  have hpc1 : t1.m_pc + 1 < CH8_MEM_SIZE := by rw [e_pc]; exact htgt
  have hf : fetch t1 = 0x00EE := by
    unfold fetch
    rw [e_pc, e_mem, hret0, hret1]
    decide
  have h2 : emulateCycle r2 t1 = some (updateTimers (incrPC
      { t1 with
        m_drawFlag := false,
        m_sp := t1.m_sp - 1,
        m_pc := t1.m_stack (t1.m_sp - 1) })) := by
    have hsp1 : 0 < t1.m_sp ∧ t1.m_sp - 1 < CH8_STACK_SIZE := by
      rw [e_sp]; exact ⟨Nat.succ_pos _, by simpa using hsp⟩
    rw [emulateCycle_eq r2 t1 hpc1, hf]
    simp [decode, class0, brk, hsp1, and_F000, and_00FF]
  refine ⟨t1, _, h1, h2, e_pc, e_sp, ?_, ?_⟩
  · simp [e_sp, e_stack, hpc2]
  · simp [e_sp]

/-- Witness of C6: the call `2300` at `0x200` and the `00EE` at `0x300`. -/
theorem call_then_return_witness :
    ∃ t1 t2, emulateCycle 0 stCall = some t1 ∧ emulateCycle 0 t1 = some t2 ∧
      t1.m_pc = 0x300 ∧ t1.m_sp = stCall.m_sp + 1 ∧
      t2.m_pc = stCall.m_pc + 2 ∧ t2.m_sp = stCall.m_sp :=
  call_then_return 0 0 stCall 0x300 (by decide) (by decide) (by decide) (by decide)
    (by decide) (by decide) (by decide)

/-- C7. `FX55` at the program counter directly followed by `FX65` with the
same `x`, with `I + x` inside the memory and the dumped bytes `I..I+x` not
covering the following instruction: after the two cycles every register
`V0..Vx` has the value it had before the dump, `I` is unchanged, and
`memory[I + i] = Vi` for every `i` in `0..x`. -/
theorem dump_then_load (r1 r2 : Nat) (s : Chip8) (x : Nat) (hx : x < 16)
    (hpc : s.m_pc + 3 < CH8_MEM_SIZE)
    (hop : fetch s = 0xF055 + 0x100 * x)
    (hnext : fetch { s with m_pc := s.m_pc + 2 } = 0xF065 + 0x100 * x)
    (hI : s.m_I + x < CH8_MEM_SIZE)
    (hdisj : s.m_pc + 3 < s.m_I ∨ s.m_I + x < s.m_pc + 2) :
    ∃ t1 t2, emulateCycle r1 s = some t1 ∧ emulateCycle r2 t1 = some t2 ∧
      (∀ i, i ≤ x → t2.m_V i = s.m_V i) ∧
      t2.m_I = s.m_I ∧
      (∀ i, i ≤ x → t2.m_memory (s.m_I + i) = s.m_V i) := by
  have hmem : CH8_MEM_SIZE = 4096 := rfl
  have hpc2 : (s.m_pc + 2) % 65536 = s.m_pc + 2 := by omega
  have h1 := emulateCycle_dump r1 s x hx (by omega) hop hI
  obtain ⟨t1, ht1⟩ : ∃ t1, t1 = updateTimers (incrPC
      { s with
        m_drawFlag := false,
        m_memory := fun a =>
          if s.m_I ≤ a ∧ a ≤ s.m_I + x then s.m_V (a - s.m_I) else s.m_memory a }) :=
    ⟨_, rfl⟩
  rw [← ht1] at h1
  have e_pc : t1.m_pc = s.m_pc + 2 := by
    rw [ht1, updateTimers_pc, incrPC_pc]; exact hpc2
  have e_I : t1.m_I = s.m_I := by rw [ht1, updateTimers_I, incrPC_I]
  have e_V : t1.m_V = s.m_V := by rw [ht1, updateTimers_V, incrPC_V]
  have e_mem : ∀ a, t1.m_memory a =
      if s.m_I ≤ a ∧ a ≤ s.m_I + x then s.m_V (a - s.m_I) else s.m_memory a := by
    intro a
    rw [ht1, updateTimers_memory, incrPC_memory]
  have hf : fetch t1 = 0xF065 + 0x100 * x := by
    rw [← hnext]
    unfold fetch
    rw [e_pc, e_mem, e_mem, if_neg (by omega), if_neg (by omega)]
  have h2 := emulateCycle_load r2 t1 x hx (by omega) hf (by omega)
  refine ⟨t1, _, h1, h2, ?_, ?_, ?_⟩
  · intro i hi
    simp only [updateTimers_V, incrPC_V]
    rw [if_pos hi, e_I, e_mem, if_pos (by omega)]
    congr 1; omega
  · simp only [updateTimers_I, incrPC_I]; exact e_I
  · intro i hi
    simp only [updateTimers_memory, incrPC_memory]
    rw [e_mem, if_pos (by omega)]
    congr 1; omega

/-- Witness of C7: `F255` then `F265` at `0x200` with `I = 0x300`. -/
theorem dump_then_load_witness :
    ∃ t1 t2, emulateCycle 0 stDump = some t1 ∧ emulateCycle 0 t1 = some t2 ∧
      (∀ i, i ≤ 2 → t2.m_V i = stDump.m_V i) ∧
      t2.m_I = stDump.m_I ∧
      (∀ i, i ≤ 2 → t2.m_memory (stDump.m_I + i) = stDump.m_V i) :=
  dump_then_load 0 0 stDump 2 (by decide) (by decide) (by decide) (by decide)
    (by decide) (by decide)

/-- C8. `FX33` with `I + 2` inside the memory: the three bytes at `I`, `I+1`,
`I+2` become the hundreds, tens and ones digit of the byte in `Vx`; every
digit is at most 9 and the digits recompose to `Vx`; no other memory byte, no
register and not `I` changes; 255 gives (2,5,5), 0 gives (0,0,0) and 9 gives
(0,0,9). -/
theorem bcd_FX33 (rnd : Nat) (s : Chip8) (x : Nat) (hx : x < 16)
    (hpc : s.m_pc + 1 < CH8_MEM_SIZE) (hop : fetch s = 0xF033 + 0x100 * x)
    (hI : s.m_I + 2 < CH8_MEM_SIZE) (hV : s.m_V x < 256) :
    ∃ t, emulateCycle rnd s = some t ∧
      t.m_memory s.m_I = s.m_V x / 100 ∧
      t.m_memory (s.m_I + 1) = (s.m_V x / 10) % 10 ∧
      t.m_memory (s.m_I + 2) = s.m_V x % 10 ∧
      t.m_memory s.m_I ≤ 9 ∧ t.m_memory (s.m_I + 1) ≤ 9 ∧ t.m_memory (s.m_I + 2) ≤ 9 ∧
      100 * t.m_memory s.m_I + 10 * t.m_memory (s.m_I + 1) + t.m_memory (s.m_I + 2)
        = s.m_V x ∧
      (∀ a, a ≠ s.m_I → a ≠ s.m_I + 1 → a ≠ s.m_I + 2 → t.m_memory a = s.m_memory a) ∧
      (∀ j, t.m_V j = s.m_V j) ∧ t.m_I = s.m_I ∧
      (s.m_V x = 255 →
        t.m_memory s.m_I = 2 ∧ t.m_memory (s.m_I + 1) = 5 ∧ t.m_memory (s.m_I + 2) = 5) ∧
      (s.m_V x = 0 →
        t.m_memory s.m_I = 0 ∧ t.m_memory (s.m_I + 1) = 0 ∧ t.m_memory (s.m_I + 2) = 0) ∧
      (s.m_V x = 9 →
        t.m_memory s.m_I = 0 ∧ t.m_memory (s.m_I + 1) = 0 ∧ t.m_memory (s.m_I + 2) = 9) := by
  have hX : fetch s / 256 % 16 = x := by omega
  have hK : fetch s / 4096 % 16 * 4096 = 0xF000 := by omega
  have hN : fetch s % 256 = 0x33 := by omega
  have heq : emulateCycle rnd s = some (updateTimers (incrPC
      { s with
        m_drawFlag := false,
        m_memory := arrSet (arrSet (arrSet s.m_memory s.m_I (s.m_V x / 100))
          (s.m_I + 1) (s.m_V x % 100 / 10)) (s.m_I + 2) (s.m_V x % 100 % 10) })) := by
    rw [emulateCycle_eq rnd s hpc, hX]
    simp [decode, classF, and_F000, and_00FF, hK, hN, brk, hI]
  refine ⟨_, heq, ?_⟩
  simp only [updateTimers_memory, incrPC_memory, updateTimers_V, incrPC_V,
    updateTimers_I, incrPC_I]
  have e0 : arrSet (arrSet (arrSet s.m_memory s.m_I (s.m_V x / 100)) (s.m_I + 1)
      (s.m_V x % 100 / 10)) (s.m_I + 2) (s.m_V x % 100 % 10) s.m_I = s.m_V x / 100 := by
    rw [arrSet_other _ _ _ _ (by omega), arrSet_other _ _ _ _ (by omega), arrSet_same]
  have e1 : arrSet (arrSet (arrSet s.m_memory s.m_I (s.m_V x / 100)) (s.m_I + 1)
      (s.m_V x % 100 / 10)) (s.m_I + 2) (s.m_V x % 100 % 10) (s.m_I + 1)
        = s.m_V x % 100 / 10 := by
    rw [arrSet_other _ _ _ _ (by omega), arrSet_same]
  rw [e0, e1, arrSet_same]
  refine ⟨by omega, by omega, by omega, by omega, by omega, by omega, by omega,
    ?_, fun _ => trivial, trivial, ?_, ?_, ?_⟩
  · intro a h0 h1 h2
    rw [arrSet_other _ _ _ _ h2, arrSet_other _ _ _ _ h1, arrSet_other _ _ _ _ h0]
  · intro h; omega
  · intro h; omega
  · intro h; omega

/-- Witness of C8: `F133` with `V1 = 255` writes 2, 5, 5 at `0x300..0x302`. -/
theorem bcd_FX33_witness :
    ∃ t, emulateCycle 0 stBcd = some t ∧
      t.m_memory 0x300 = 2 ∧ t.m_memory 0x301 = 5 ∧ t.m_memory 0x302 = 5 := by
  obtain ⟨t, h, _, _, _, _, _, _, _, _, _, _, h255, _, _⟩ :=
    bcd_FX33 0 stBcd 1 (by decide) (by decide) (by decide) (by decide) (by decide)
  exact ⟨t, h, h255 (by decide)⟩

/-- C10 (what the code does). The loops of `init` that clear the registers and
the key flags stop before index `0xF`: from a state with `VF = 7` and key
`0xF` down, `init` leaves `VF = 7` and key `0xF` down. -/
theorem init_keeps_VF_and_key_F :
    (init stDirty).m_V 0xF = 7 ∧ (init stDirty).m_keys 0xF = true := by
  rw [init_V, init_keys]
  decide

/-- C11 as stated fails. The word `8128` is handled by no case, and after the
cycle the program counter is still `0x200`: the `default` branches report the
word and do not call `incrPC`. The word `01E0` is not `00E0`, yet the inner
switch looks at the low byte only: the display is cleared and the program
counter advanced. -/
theorem unknown_opcode_counterexample :
    fetch stUnknown = 0x8128 ∧ stUnknown.m_pc = 0x200 ∧
    (emulateCycle 0 stUnknown).map (fun t => t.m_pc) = some 0x200 ∧
    fetch stLowByteE0 = 0x01E0 ∧ stLowByteE0.m_gfx 0 0 = 1 ∧
    (emulateCycle 0 stLowByteE0).map (fun t => (t.m_pc, t.m_gfx 0 0)) = some (0x202, 0) := by
  refine ⟨by decide, by decide, by decide, by decide, by decide, ?_⟩
  have hpc : stLowByteE0.m_pc + 1 < CH8_MEM_SIZE := by decide
  have hf : fetch stLowByteE0 = 0x01E0 := by decide
  rw [emulateCycle_eq 0 stLowByteE0 hpc, hf, decode_class0 _ _ _ _ _ (by decide)]
  simp only [class0, and_00FF, brk]
  norm_num
  constructor
  · decide
  · rw [clearDisp_gfx]
    decide

/-- C11 (amended). For every instruction word that reaches a `default` label
of the switches (`0Nnn` with low byte `nn` other than `E0` and `EE`, `8XYn`
with `n` not in `0..7, E`, `EXnn` with `nn` not in `9E, A1`, `FXnn` with `nn`
not in the nine handled bytes), one cycle returns, leaves the program counter
where it was, and leaves registers, `I`, `SP`, stack, memory and display
unchanged; the draw flag is reset and each timer ticks. -/
theorem unknown_opcode_no_effect (rnd : Nat) (s : Chip8)
    (hpc : s.m_pc + 1 < CH8_MEM_SIZE)
    (hop : (fetch s / 0x1000 = 0x0 ∧ fetch s % 0x100 ≠ 0xE0 ∧ fetch s % 0x100 ≠ 0xEE) ∨
           (fetch s / 0x1000 = 0x8 ∧ 8 ≤ fetch s % 0x10 ∧ fetch s % 0x10 ≠ 0xE) ∨
           (fetch s / 0x1000 = 0xE ∧ fetch s % 0x100 ≠ 0x9E ∧ fetch s % 0x100 ≠ 0xA1) ∨
           (fetch s / 0x1000 = 0xF ∧
              fetch s % 0x100 ∉ [0x07, 0x0A, 0x15, 0x18, 0x1E, 0x29, 0x33, 0x55, 0x65])) :
    ∃ t, emulateCycle rnd s = some t ∧
      t.m_pc = s.m_pc ∧ t.m_V = s.m_V ∧ t.m_I = s.m_I ∧ t.m_sp = s.m_sp ∧
      t.m_stack = s.m_stack ∧ t.m_memory = s.m_memory ∧ t.m_gfx = s.m_gfx ∧
      t.m_drawFlag = false ∧
      t.m_dTimer = s.m_dTimer - 1 ∧ t.m_sTimer = s.m_sTimer - 1 := by
  have hd : decode rnd (fetch s) (fetch s / 256 % 16) (fetch s / 16 % 16)
      { s with m_drawFlag := false } = brk { s with m_drawFlag := false } := by
    rcases hop with ⟨hk, h1, h2⟩ | ⟨hk, h1, h2⟩ | ⟨hk, h1, h2⟩ | ⟨hk, h1⟩
    · rw [decode_class0 _ _ _ _ _ (by omega), class0_default _ _ h1 h2]
    · rw [decode_class8 _ _ _ _ _ (by omega), class8_default _ _ _ _ h1 h2]
    · rw [decode_classE _ _ _ _ _ (by omega), classE_default _ _ _ h1 h2]
    · rw [decode_classF _ _ _ _ _ (by omega), classF_default _ _ _ h1]
  refine ⟨updateTimers { s with m_drawFlag := false }, ?_, ?_⟩
  · rw [emulateCycle_eq rnd s hpc, hd]
    rfl
  · exact ⟨by simp, by simp, by simp, by simp, by simp, by simp, by simp, by simp,
      updateTimers_dTimer _, updateTimers_sTimer _⟩

/-- Witness of amended C11 at the word `8128`. -/
theorem unknown_opcode_no_effect_witness :
    ∃ t, emulateCycle 0 stUnknown = some t ∧
      t.m_pc = stUnknown.m_pc ∧ t.m_V = stUnknown.m_V ∧ t.m_I = stUnknown.m_I ∧
      t.m_sp = stUnknown.m_sp ∧ t.m_stack = stUnknown.m_stack ∧
      t.m_memory = stUnknown.m_memory ∧ t.m_gfx = stUnknown.m_gfx ∧
      t.m_drawFlag = false ∧
      t.m_dTimer = stUnknown.m_dTimer - 1 ∧ t.m_sTimer = stUnknown.m_sTimer - 1 :=
  unknown_opcode_no_effect 0 stUnknown (by decide) (by decide)

/-- C12 (what the code does). `case 0x9000` has no `break`, so `9120` runs on
into `case 0xA000`: with `V1 = V2` the program counter ends at `0x204` (two
words on, not one) and with `V1 ≠ V2` at `0x206` (three words on, not two),
and in both cases `I` is overwritten with `0x120`, the low 12 bits of the
instruction word. -/
theorem skip_neq_falls_through :
    fetch stSkipNeqSame = 0x9120 ∧ stSkipNeqSame.m_V 1 = stSkipNeqSame.m_V 2 ∧
    stSkipNeqSame.m_pc = 0x200 ∧ stSkipNeqSame.m_I = 0x300 ∧
    (emulateCycle 0 stSkipNeqSame).map (fun t => (t.m_pc, t.m_I)) = some (0x204, 0x120) ∧
    fetch stSkipNeqDiff = 0x9120 ∧ stSkipNeqDiff.m_V 1 ≠ stSkipNeqDiff.m_V 2 ∧
    stSkipNeqDiff.m_pc = 0x200 ∧ stSkipNeqDiff.m_I = 0x300 ∧
    (emulateCycle 0 stSkipNeqDiff).map (fun t => (t.m_pc, t.m_I)) = some (0x206, 0x120) := by
  decide

/-- C13 as stated fails. `F10A` with no key down is not `FX15` and not `FX18`,
yet after the cycle both timers still hold 5: the case returns from
`emulateCycle` before the timer update. -/
theorem timers_not_ticked_while_waiting :
    fetch stWaitNoKey = 0xF10A ∧ stWaitNoKey.m_dTimer = 5 ∧ stWaitNoKey.m_sTimer = 5 ∧
    (emulateCycle 0 stWaitNoKey).map (fun t => (t.m_dTimer, t.m_sTimer)) = some (5, 5) := by
  decide

/-- C13 (amended). For a cycle that returns a state: if the instruction is
`FX0A` and none of the keys `0..14` is down, both timers keep their values;
otherwise, unless the instruction is `FX15`, the delay timer goes to `old - 1`
when `old > 0` and stays 0 when `old = 0`, and unless the instruction is
`FX18` the sound timer does the same. -/
theorem timers_tick (rnd : Nat) (s t : Chip8) (h : emulateCycle rnd s = some t) :
    ((fetch s / 0x1000 = 0xF ∧ fetch s % 0x100 = 0x0A ∧
        ∀ i, i < 0xF → s.m_keys i = false) →
      t.m_dTimer = s.m_dTimer ∧ t.m_sTimer = s.m_sTimer) ∧
    (¬ (fetch s / 0x1000 = 0xF ∧ fetch s % 0x100 = 0x0A ∧
        ∀ i, i < 0xF → s.m_keys i = false) →
      (¬ (fetch s / 0x1000 = 0xF ∧ fetch s % 0x100 = 0x15) →
        t.m_dTimer = (if s.m_dTimer > 0 then s.m_dTimer - 1 else 0)) ∧
      (¬ (fetch s / 0x1000 = 0xF ∧ fetch s % 0x100 = 0x18) →
        t.m_sTimer = (if s.m_sTimer > 0 then s.m_sTimer - 1 else 0))) := by
  have hlt := fetch_lt s
  obtain ⟨hpc, u, b, ht, hE⟩ := emulateCycle_effect rnd s t h
  constructor
  · rintro ⟨hk, hn, hkeys⟩
    rw [emulateCycle_wait rnd s hpc hk hn hkeys] at h
    cases h
    exact ⟨rfl, rfl⟩
  · intro hw
    have hb : b = true := by
      cases b with
      | true => rfl
      | false =>
        exfalso
        obtain ⟨_, e1, e2, e3⟩ := hE.2.1 rfl
        exact hw ⟨by omega, e2, e3⟩
    subst hb
    rw [if_pos rfl] at ht
    obtain ⟨hd, hs⟩ := hE.1 rfl
    constructor
    · intro hne
      have e : u.m_dTimer = s.m_dTimer := hd (fun hc => hne ⟨by omega, hc.2⟩)
      rw [ht, updateTimers_dTimer, e]
      split <;> omega
    · intro hne
      have e : u.m_sTimer = s.m_sTimer := hs (fun hc => hne ⟨by omega, hc.2⟩)
      rw [ht, updateTimers_sTimer, e]
      split <;> omega

/-- Witness of amended C13, the scenario of the claim: with the delay timer
at 1, a cycle on the word `8128`, which no case handles, leaves it at 0. -/
theorem timers_tick_witness :
    ∃ t, emulateCycle 0 stUnknown = some t ∧ stUnknown.m_dTimer = 1 ∧ t.m_dTimer = 0 := by
  have h1 : (emulateCycle 0 stUnknown).isSome = true := by decide
  obtain ⟨t, ht⟩ := Option.isSome_iff_exists.mp h1
  have h2 := (timers_tick 0 stUnknown t ht).2 (by decide)
  refine ⟨t, ht, by decide, ?_⟩
  rw [h2.1 (by decide)]
  decide

/-- C14 (what the code does). `F10A` with only key 5 down stores 1, the value
of `m_keys[5]`, in `V1`, and key 1 is not down; with only key `0xF` down the
scan, which stops before index `0xF`, finds nothing: the program counter
stays at `0x200` and `V1` keeps its value. -/
theorem wait_key_stores_flag_and_misses_key_F :
    fetch stWaitKey5 = 0xF10A ∧ stWaitKey5.m_keys 5 = true ∧
    (emulateCycle 0 stWaitKey5).map (fun t => (t.m_pc, t.m_V 1, t.m_keys (t.m_V 1)))
      = some (0x202, 1, false) ∧
    fetch stWaitKeyF = 0xF10A ∧ stWaitKeyF.m_keys 0xF = true ∧ stWaitKeyF.m_pc = 0x200 ∧
    (emulateCycle 0 stWaitKeyF).map (fun t => (t.m_pc, t.m_V 1)) = some (0x200, 0) := by
  decide

/-- C15. When the instruction word `memory[PC] * 256 + memory[PC+1]` is
`3XNN`, `4XNN` or `5XY0`, one cycle moves the program counter on by 4 when
the condition holds (`Vx = NN`, `Vx ≠ NN`, `Vx = Vy`) and by 2 otherwise, and
leaves every register, `I`, `SP`, memory and the display as they were. -/
theorem skip_3XNN_4XNN_5XY0 (rnd : Nat) (s : Chip8) (x y nn : Nat)
    (hx : x < 16) (hy : y < 16) (hnn : nn < 256)
    (hpc : s.m_pc + 1 < CH8_MEM_SIZE)
    (hb0 : s.m_memory s.m_pc < 256) (hb1 : s.m_memory (s.m_pc + 1) < 256) :
    (s.m_memory s.m_pc * 256 + s.m_memory (s.m_pc + 1) = 0x3000 + 0x100 * x + nn →
      ∃ t, emulateCycle rnd s = some t ∧
        t.m_pc = (if s.m_V x = nn then s.m_pc + 4 else s.m_pc + 2) ∧
        t.m_V = s.m_V ∧ t.m_I = s.m_I ∧ t.m_sp = s.m_sp ∧
        t.m_memory = s.m_memory ∧ t.m_gfx = s.m_gfx) ∧
    (s.m_memory s.m_pc * 256 + s.m_memory (s.m_pc + 1) = 0x4000 + 0x100 * x + nn →
      ∃ t, emulateCycle rnd s = some t ∧
        t.m_pc = (if s.m_V x ≠ nn then s.m_pc + 4 else s.m_pc + 2) ∧
        t.m_V = s.m_V ∧ t.m_I = s.m_I ∧ t.m_sp = s.m_sp ∧
        t.m_memory = s.m_memory ∧ t.m_gfx = s.m_gfx) ∧
    (s.m_memory s.m_pc * 256 + s.m_memory (s.m_pc + 1) = 0x5000 + 0x100 * x + 0x10 * y →
      ∃ t, emulateCycle rnd s = some t ∧
        t.m_pc = (if s.m_V x = s.m_V y then s.m_pc + 4 else s.m_pc + 2) ∧
        t.m_V = s.m_V ∧ t.m_I = s.m_I ∧ t.m_sp = s.m_sp ∧
        t.m_memory = s.m_memory ∧ t.m_gfx = s.m_gfx) := by
  have hf := fetch_eq_bytes s hb0 hb1
  have hpc' : ({ s with m_drawFlag := false } : Chip8).m_pc + 1 < CH8_MEM_SIZE := hpc
  refine ⟨?_, ?_, ?_⟩
  · intro hw
    rw [← hf] at hw
    have hX : fetch s / 256 % 16 = x := by omega
    have hK : fetch s / 4096 % 16 * 4096 = 0x3000 := by omega
    have hN : fetch s % 256 = nn := by omega
    by_cases hc : s.m_V x = nn
    · refine ⟨updateTimers (incrPC (incrPC { s with m_drawFlag := false })), ?_, ?_⟩
      · rw [emulateCycle_eq rnd s hpc, hX]
        simp [decode, and_F000, and_00FF, hK, hN, brk, hc]
      · refine ⟨?_, by simp, by simp, by simp, by simp, by simp⟩
        rw [updateTimers_pc, incrPC_twice_pc _ hpc', if_pos hc]
    · refine ⟨updateTimers (incrPC { s with m_drawFlag := false }), ?_, ?_⟩
      · rw [emulateCycle_eq rnd s hpc, hX]
        simp [decode, and_F000, and_00FF, hK, hN, brk, hc]
      · refine ⟨?_, by simp, by simp, by simp, by simp, by simp⟩
        rw [updateTimers_pc, incrPC_once_pc _ hpc', if_neg hc]
  · intro hw
    rw [← hf] at hw
    have hX : fetch s / 256 % 16 = x := by omega
    have hK : fetch s / 4096 % 16 * 4096 = 0x4000 := by omega
    have hN : fetch s % 256 = nn := by omega
    by_cases hc : s.m_V x ≠ nn
    · refine ⟨updateTimers (incrPC (incrPC { s with m_drawFlag := false })), ?_, ?_⟩
      · rw [emulateCycle_eq rnd s hpc, hX]
        simp [decode, and_F000, and_00FF, hK, hN, brk, hc]
      · refine ⟨?_, by simp, by simp, by simp, by simp, by simp⟩
        rw [updateTimers_pc, incrPC_twice_pc _ hpc', if_pos hc]
    · refine ⟨updateTimers (incrPC { s with m_drawFlag := false }), ?_, ?_⟩
      · rw [emulateCycle_eq rnd s hpc, hX]
        have hc' : s.m_V x = nn := not_not.mp hc
        simp [decode, and_F000, and_00FF, hK, hN, brk, hc']
      · refine ⟨?_, by simp, by simp, by simp, by simp, by simp⟩
        rw [updateTimers_pc, incrPC_once_pc _ hpc', if_neg hc]
  · intro hw
    rw [← hf] at hw
    have hX : fetch s / 256 % 16 = x := by omega
    have hY : fetch s / 16 % 16 = y := by omega
    have hK : fetch s / 4096 % 16 * 4096 = 0x5000 := by omega
    by_cases hc : s.m_V x = s.m_V y
    · refine ⟨updateTimers (incrPC (incrPC { s with m_drawFlag := false })), ?_, ?_⟩
      · rw [emulateCycle_eq rnd s hpc, hX, hY]
        simp [decode, and_F000, hK, brk, hc]
      · refine ⟨?_, by simp, by simp, by simp, by simp, by simp⟩
        rw [updateTimers_pc, incrPC_twice_pc _ hpc', if_pos hc]
    · refine ⟨updateTimers (incrPC { s with m_drawFlag := false }), ?_, ?_⟩
      · rw [emulateCycle_eq rnd s hpc, hX, hY]
        simp [decode, and_F000, hK, brk, hc]
      · refine ⟨?_, by simp, by simp, by simp, by simp, by simp⟩
        rw [updateTimers_pc, incrPC_once_pc _ hpc', if_neg hc]

/-- Witness of C15: `3105`, `4105` with `V1 = 5`, and `5120` with
`V1 = V2 = 5`. -/
theorem skip_3XNN_4XNN_5XY0_witness :
    (∃ t, emulateCycle 0 stSkipEq = some t ∧
        t.m_pc = (if stSkipEq.m_V 1 = 5 then stSkipEq.m_pc + 4 else stSkipEq.m_pc + 2) ∧
        t.m_V = stSkipEq.m_V ∧ t.m_I = stSkipEq.m_I ∧ t.m_sp = stSkipEq.m_sp ∧
        t.m_memory = stSkipEq.m_memory ∧ t.m_gfx = stSkipEq.m_gfx) ∧
    (∃ t, emulateCycle 0 stSkipNe = some t ∧
        t.m_pc = (if stSkipNe.m_V 1 ≠ 5 then stSkipNe.m_pc + 4 else stSkipNe.m_pc + 2) ∧
        t.m_V = stSkipNe.m_V ∧ t.m_I = stSkipNe.m_I ∧ t.m_sp = stSkipNe.m_sp ∧
        t.m_memory = stSkipNe.m_memory ∧ t.m_gfx = stSkipNe.m_gfx) ∧
    (∃ t, emulateCycle 0 stSkipRegEq = some t ∧
        t.m_pc = (if stSkipRegEq.m_V 1 = stSkipRegEq.m_V 2
          then stSkipRegEq.m_pc + 4 else stSkipRegEq.m_pc + 2) ∧
        t.m_V = stSkipRegEq.m_V ∧ t.m_I = stSkipRegEq.m_I ∧ t.m_sp = stSkipRegEq.m_sp ∧
        t.m_memory = stSkipRegEq.m_memory ∧ t.m_gfx = stSkipRegEq.m_gfx) :=
  ⟨(skip_3XNN_4XNN_5XY0 0 stSkipEq 1 0 5 (by decide) (by decide) (by decide) (by decide)
      (by decide) (by decide)).1 (by decide),
   (skip_3XNN_4XNN_5XY0 0 stSkipNe 1 0 5 (by decide) (by decide) (by decide) (by decide)
      (by decide) (by decide)).2.1 (by decide),
   (skip_3XNN_4XNN_5XY0 0 stSkipRegEq 1 2 0 (by decide) (by decide) (by decide) (by decide)
      (by decide) (by decide)).2.2 (by decide)⟩

/-- C16 (what the code does). `D011` with `V0 = 57` and sprite row `0x01`,
wrap flag off: the set bit of column 7 falls on display column
`57 + 7 = 64 = CH8_WIDTH`. The test `m_V[x] + col > CH8_WIDTH` is false there,
so the bit is not skipped and the cycle indexes `m_gfx[64]`, outside the
display (no state is returned); every other access of the cycle is in bounds.
One column further right (`V0 = 58`) the bit is skipped. -/
theorem draw_column_at_width_not_skipped :
    fetch stDrawEdge = 0xD011 ∧ stDrawEdge.m_wrapFlag = false ∧
    stDrawEdge.m_memory stDrawEdge.m_I = 0x01 ∧
    stDrawEdge.m_V 0 + 7 = CH8_WIDTH ∧ ¬ (stDrawEdge.m_V 0 + 7 > CH8_WIDTH) ∧
    stDrawEdge.m_pc + 1 < CH8_MEM_SIZE ∧ stDrawEdge.m_I < CH8_MEM_SIZE ∧
    stDrawEdge.m_V 1 < CH8_HEIGHT ∧
    (drawCol 0 1 0 0x01 7 { stDrawEdge with m_V := arrSet stDrawEdge.m_V 0xF 0 }).isSome
      = false ∧
    (emulateCycle 0 stDrawEdge).isSome = false ∧
    (emulateCycle 0 stDrawBeyond).map (fun t => t.m_gfx 65 0) = some 0 := by
  decide

/-- C18 (what the code does). The collision test and the flip each read
`m_V[x]` afresh, and the test writes `VF` in between, so with `x = 0xF` they
address different pixels. `DF01` with sprite
row `0x40` over a display whose only set pixel is `(1, 0)`: the test reads
pixel `(VF + 1, V0) = (1, 0)`, finds it set and writes `VF = 1`; the flip then
re-reads `VF` and flips pixel `(2, 0)`, which was 0. So the draw flips exactly
one pixel, that pixel was not set when it was flipped, and yet `VF` is 1
afterwards. -/
theorem draw_flag_without_flipped_collision :
    fetch stDrawCollideVF = 0xDF01 ∧ stDrawCollideVF.m_gfx 2 0 = 0 ∧
    (emulateCycle 0 stDrawCollideVF).map (fun t => t.m_gfx)
      = some (flipAt stDrawCollideVF.m_gfx (2, 0)) ∧
    (emulateCycle 0 stDrawCollideVF).map (fun t => t.m_V 0xF) = some 1 :=
  ⟨by decide, by decide, rfl, by decide⟩

/-- The collision flag where `VF` is not read as a coordinate. A draw `DXYN`
with `x ≠ 0xF`, `y + r ≠ 0xF` for every row `r < N`, that returns a state:
the display afterwards is the display before with the pixels
`drawnPixels s x y n` flipped in order; `VF` is 1 or 0, whatever it held
before, and it is 1 exactly when some pixel of that list held 1 on the display
as it stood when that pixel was flipped; with `N = 0` or an all-zero sprite
`VF` is 0 and the display is unchanged. -/
theorem draw_collision_flag (rnd : Nat) (s t : Chip8) (x y n : Nat)
    (hx : x < 16) (hy : y < 16) (hn : n < 16)
    (hxF : x ≠ 0xF) (hyF : ∀ r, r < n → y + r ≠ 0xF)
    (hop : fetch s = 0xD000 + 0x100 * x + 0x10 * y + n)
    (h : emulateCycle rnd s = some t) :
    t.m_gfx = flipAll (drawnPixels s x y n) s.m_gfx ∧
    (t.m_V 0xF = 1 ∨ t.m_V 0xF = 0) ∧
    (t.m_V 0xF = 1 ↔
      ∃ k p, (drawnPixels s x y n)[k]? = some p ∧
        flipAll ((drawnPixels s x y n).take k) s.m_gfx p.1 p.2 = 1) ∧
    (n = 0 → t.m_V 0xF = 0 ∧ t.m_gfx = s.m_gfx) ∧
    ((∀ r, r < n → s.m_memory (s.m_I + r) = 0) → t.m_V 0xF = 0 ∧ t.m_gfx = s.m_gfx) := by
  obtain ⟨hpc, _⟩ := emulateCycle_effect rnd s t h
  rw [emulateCycle_draw rnd s x y n hx hy hn hpc hop] at h
  obtain ⟨t', hloop, rfl⟩ := Option.map_eq_some'.mp h
  have hR : SameDrawInputs x y n s
      { s with m_drawFlag := false, m_V := arrSet s.m_V 0xF 0 } := by
    refine ⟨?_, ?_, rfl, fun _ _ => rfl, rfl⟩
    · show s.m_V x = arrSet s.m_V 0xF 0 x
      rw [arrSet_other _ _ _ _ hxF]
    · intro r hr
      show s.m_V (y + r) = arrSet s.m_V 0xF 0 (y + r)
      rw [arrSet_other _ _ _ _ (hyF r hr)]
  obtain ⟨_, hg, hv⟩ := drawLoop_flips s x y n hxF hyF _ t' hR hloop
  have hg' : (updateTimers (incrPC { t' with m_drawFlag := true })).m_gfx
      = flipAll (drawnPixels s x y n) s.m_gfx := by
    rw [updateTimers_gfx, incrPC_gfx]
    exact hg
  have hv' : (updateTimers (incrPC { t' with m_drawFlag := true })).m_V 0xF
      = (if collides s.m_gfx (drawnPixels s x y n) = true then 1 else 0) := by
    rw [updateTimers_V, incrPC_V]
    show t'.m_V 0xF = _
    rw [hv]
    show (if collides s.m_gfx (drawnPixels s x y n) = true then 1
      else arrSet s.m_V 0xF 0 0xF) = _
    rw [arrSet_same]
  have hempty : drawnPixels s x y n = [] →
      (updateTimers (incrPC { t' with m_drawFlag := true })).m_V 0xF = 0 ∧
      (updateTimers (incrPC { t' with m_drawFlag := true })).m_gfx = s.m_gfx := by
    intro he
    rw [hv', hg', he]
    exact ⟨by simp [collides], rfl⟩
  refine ⟨hg', ?_, ?_, ?_, ?_⟩
  · rw [hv']
    split
    · exact Or.inl rfl
    · exact Or.inr rfl
  · rw [hv', ← collides_iff]
    split <;> simp_all
  · intro h0
    apply hempty
    rw [h0]
    rfl
  · intro hz
    apply hempty
    unfold drawnPixels
    apply catPixels_nil
    intro row _ hrow
    apply catPixels_nil
    intro col _ _
    unfold pixelAt
    rw [hz row (by omega)]
    simp

/-- The collision flag at a concrete state: `D122` over a display with pixel
`(3, 4)` set, where the first pixel drawn collides. -/
theorem draw_collision_flag_witness :
    ∃ t, emulateCycle 0 stDrawTwice = some t ∧
      t.m_gfx = flipAll (drawnPixels stDrawTwice 1 2 2) stDrawTwice.m_gfx ∧
      t.m_V 0xF = 1 := by
  have h1 : (emulateCycle 0 stDrawTwice).isSome = true := by decide
  obtain ⟨t, ht⟩ := Option.isSome_iff_exists.mp h1
  obtain ⟨hg, _, hv, _⟩ := draw_collision_flag 0 stDrawTwice t 1 2 2 (by decide)
    (by decide) (by decide) (by decide) (by decide) (by decide) ht
  refine ⟨t, ht, hg, hv.mpr ⟨0, (3, 4), by decide, by decide⟩⟩

/-- C19 as stated fails. On a constructed machine byte 0 is `0xF0`, the first
font byte; `F033` with `I = 0` and `V0 = 0` writes the hundreds digit 0 over
it, and so does `F055` with `I = 0`, `V0 = 0`. -/
theorem font_region_overwritten :
    CH8_FONTSET.getD 0 0 = 0xF0 ∧
    fetch stBcdFont = 0xF033 ∧ stBcdFont.m_I = 0 ∧ stBcdFont.m_memory 0 = 0xF0 ∧
    (emulateCycle 0 stBcdFont).map (fun t => t.m_memory 0) = some 0 ∧
    fetch stDumpFont = 0xF055 ∧ stDumpFont.m_I = 0 ∧ stDumpFont.m_memory 0 = 0xF0 ∧
    (emulateCycle 0 stDumpFont).map (fun t => t.m_memory 0) = some 0 := by
  decide

/-- C19 (amended). A cycle that returns a state and is not an `FX33` or `FX55`
with `I` below `0x50` leaves the bytes `0x000..0x04F` as they were; so a font
table present before the cycle is present after it. -/
theorem font_region_kept (rnd : Nat) (s t : Chip8) (h : emulateCycle rnd s = some t)
    (hI : ¬ (fetch s / 0x1000 = 0xF ∧ (fetch s % 0x100 = 0x33 ∨ fetch s % 0x100 = 0x55))
          ∨ 0x50 ≤ s.m_I) :
    (∀ a, a < 0x50 → t.m_memory a = s.m_memory a) ∧
    ((∀ i, i < 80 → s.m_memory i = CH8_FONTSET.getD i 0) →
      ∀ i, i < 80 → t.m_memory i = CH8_FONTSET.getD i 0) := by
  have hlt := fetch_lt s
  obtain ⟨_, u, b, ht, hE⟩ := emulateCycle_effect rnd s t h
  have hm : t.m_memory = u.m_memory := by
    rw [ht]
    split
    · exact updateTimers_memory u
    · rfl
  have hkeep : ∀ a, a < 0x50 → t.m_memory a = s.m_memory a := by
    intro a ha
    rw [hm]
    rcases hI with hne | hge
    · have e : u.m_memory = s.m_memory :=
        hE.2.2.1 (fun hc => hne ⟨by omega, hc.2⟩)
      rw [e]
    · exact hE.2.2.2.1 a (by show a < s.m_I; omega)
  exact ⟨hkeep, fun hf i hi => by rw [hkeep i (by omega)]; exact hf i hi⟩

/-- Witness of amended C19: `F033` with `I = 0x300` on a constructed machine. -/
theorem font_region_kept_witness :
    ∃ t, emulateCycle 0 stBcdHigh = some t ∧
      (∀ a, a < 0x50 → t.m_memory a = stBcdHigh.m_memory a) ∧
      ((∀ i, i < 80 → stBcdHigh.m_memory i = CH8_FONTSET.getD i 0) →
        ∀ i, i < 80 → t.m_memory i = CH8_FONTSET.getD i 0) := by
  have h1 : (emulateCycle 0 stBcdHigh).isSome = true := by decide
  obtain ⟨t, ht⟩ := Option.isSome_iff_exists.mp h1
  exact ⟨t, ht, font_region_kept 0 stBcdHigh t ht (Or.inr (by decide))⟩

/-- C20 as stated fails. A call `2300` with the stack pointer at the capacity
stores at `m_stack[CH8_STACK_SIZE]`, and a return `00EE` with the stack
pointer at 0 reads the slot below slot 0: both index the stack outside
`0..capacity-1` (no state is returned), nothing checks for a stack fault. The
fetch of both cycles is in bounds. -/
theorem stack_fault_not_checked :
    fetch stCallFull = 0x2300 ∧ stCallFull.m_sp = CH8_STACK_SIZE ∧
    stCallFull.m_pc + 1 < CH8_MEM_SIZE ∧ (emulateCycle 0 stCallFull).isSome = false ∧
    fetch stReturnEmpty = 0x00EE ∧ stReturnEmpty.m_sp = 0 ∧
    stReturnEmpty.m_pc + 1 < CH8_MEM_SIZE ∧
    (emulateCycle 0 stReturnEmpty).isSome = false := by
  decide

/-- C20 (amended). From a state with `SP` at most the capacity, a cycle that
returns a state leaves `SP` at most the capacity and writes no stack slot
from the capacity on; a call with `SP` below the capacity and a return with
`SP` above 0 do return a state (fetch in bounds); a call at `SP = capacity`
and a return at `SP = 0` are not guarded and index the stack out of bounds, so
they return no state. -/
theorem stack_pointer_in_range (rnd : Nat) (s : Chip8) (hsp : s.m_sp ≤ CH8_STACK_SIZE) :
    (∀ t, emulateCycle rnd s = some t →
      t.m_sp ≤ CH8_STACK_SIZE ∧ ∀ i, CH8_STACK_SIZE ≤ i → t.m_stack i = s.m_stack i) ∧
    (s.m_pc + 1 < CH8_MEM_SIZE → fetch s / 0x1000 = 0x2 → s.m_sp < CH8_STACK_SIZE →
      ∃ t, emulateCycle rnd s = some t ∧ t.m_sp = s.m_sp + 1) ∧
    (s.m_pc + 1 < CH8_MEM_SIZE → fetch s / 0x1000 = 0x0 → fetch s % 0x100 = 0xEE →
      0 < s.m_sp → ∃ t, emulateCycle rnd s = some t ∧ t.m_sp = s.m_sp - 1) ∧
    (fetch s / 0x1000 = 0x2 → s.m_sp = CH8_STACK_SIZE → emulateCycle rnd s = none) ∧
    (fetch s / 0x1000 = 0x0 → fetch s % 0x100 = 0xEE → s.m_sp = 0 →
      emulateCycle rnd s = none) := by
  have hlt := fetch_lt s
  have hcall : fetch s / 0x1000 = 0x2 →
      decode rnd (fetch s) (fetch s / 256 % 16) (fetch s / 16 % 16)
        { s with m_drawFlag := false } =
      if s.m_sp < CH8_STACK_SIZE then
        brk { s with m_drawFlag := false, m_stack := arrSet s.m_stack s.m_sp s.m_pc,
                     m_sp := s.m_sp + 1, m_pc := fetch s % 4096 }
      else none := by
    intro hk
    have k2 : fetch s / 4096 % 16 * 4096 = 0x2000 := by omega
    simp [decode, and_F000, and_0FFF, k2]
  have hret : fetch s / 0x1000 = 0x0 → fetch s % 0x100 = 0xEE →
      decode rnd (fetch s) (fetch s / 256 % 16) (fetch s / 16 % 16)
        { s with m_drawFlag := false } =
      if 0 < s.m_sp ∧ s.m_sp - 1 < CH8_STACK_SIZE then
        brk (incrPC { s with m_drawFlag := false, m_sp := s.m_sp - 1,
                             m_pc := s.m_stack (s.m_sp - 1) })
      else none := by
    intro hk hn
    rw [decode_class0 _ _ _ _ _ (by omega)]
    simp [class0, and_00FF, hn]
  refine ⟨?_, ?_, ?_, ?_, ?_⟩
  · intro t h
    obtain ⟨_, u, b, ht, hE⟩ := emulateCycle_effect rnd s t h
    have e1 : t.m_sp = u.m_sp := by
      rw [ht]; split
      · exact updateTimers_sp u
      · rfl
    have e2 : t.m_stack = u.m_stack := by
      rw [ht]; split
      · exact updateTimers_stack u
      · rfl
    rw [e1, e2]
    exact ⟨hE.2.2.2.2.1 hsp, hE.2.2.2.2.2⟩
  · intro hpc hk hlt'
    refine ⟨updateTimers
      { s with m_drawFlag := false, m_stack := arrSet s.m_stack s.m_sp s.m_pc,
               m_sp := s.m_sp + 1, m_pc := fetch s % 4096 }, ?_, ?_⟩
    · rw [emulateCycle_eq rnd s hpc, hcall hk, if_pos hlt']
      rfl
    · rw [updateTimers_sp]
  · intro hpc hk hn hpos
    refine ⟨updateTimers (incrPC
      { s with m_drawFlag := false, m_sp := s.m_sp - 1,
               m_pc := s.m_stack (s.m_sp - 1) }), ?_, ?_⟩
    · rw [emulateCycle_eq rnd s hpc, hret hk hn, if_pos ⟨hpos, by omega⟩]
      rfl
    · rw [updateTimers_sp, incrPC_sp]
  · intro hk hfull
    by_cases hpc : s.m_pc + 1 < CH8_MEM_SIZE
    · rw [emulateCycle_eq rnd s hpc, hcall hk, if_neg (by omega)]
      rfl
    · unfold emulateCycle
      simp only [hpc, if_false]
  · intro hk hn hzero
    by_cases hpc : s.m_pc + 1 < CH8_MEM_SIZE
    · rw [emulateCycle_eq rnd s hpc, hret hk hn, if_neg (by omega)]
      rfl
    · unfold emulateCycle
      simp only [hpc, if_false]

/-- Witness of amended C20: the call `2300` with the stack pointer one below
the capacity ends with the stack pointer at the capacity. -/
theorem stack_pointer_in_range_witness :
    ∃ t, emulateCycle 0 stCallLast = some t ∧ t.m_sp = stCallLast.m_sp + 1 ∧
      t.m_sp ≤ CH8_STACK_SIZE ∧ ∀ i, CH8_STACK_SIZE ≤ i → t.m_stack i = stCallLast.m_stack i := by
  obtain ⟨hA, hB, _⟩ := stack_pointer_in_range 0 stCallLast (by decide)
  obtain ⟨t, ht, hs⟩ := hB (by decide) (by decide) (by decide)
  exact ⟨t, ht, hs, hA t ht⟩

end Chip8
